import Mathlib

/-!
Verification of the turn-based dungeon-crawler engine (scheduler, combat
resolver, AI notice state machine, skills, loot and world bookkeeping).

Conventions of the shallow embedding:
* JavaScript numbers are modelled as rationals (`ℚ`); `Math.floor` is `Int.floor`.
  None of the verified properties depends on binary floating-point rounding.
* Mutable objects become explicit state passing: a function that mutates an
  entity returns the updated entity.
* Each call of `Math.random()` that influences verified state is surfaced as an
  explicit roll parameter (scaled to the `[0,100)` range the source compares
  against, matching `Math.random() * 100`).
* `Map`s keyed by strings become association lists with in-place update.
-/

set_option maxHeartbeats 1000000

namespace JavaGame

/-! ### Monster notice state machine

From `src/public/js/systems/projectileSystem.js`, `MovementSystem.processMonsterMovement`.
The notice component of a monster: `hasNoticed` (false = Unaware/Suspicious,
true = fully noticed/Hostile), the timer and its threshold. -/

structure Notice where
  hasNoticed : Bool
  noticeTimer : Nat
  noticeDelay : Nat
  deriving Repr, DecidableEq

/-- The notice-state update performed by `processMonsterMovement` each turn.
`visible` is `visibilityComponent.isVisible` (when false the whole procedure
returns early, leaving the component untouched; the same happens when the
`ai`/`notice`/`visibility` components or the player are missing).
`inRangeAndSight` is `distance <= alertRange && hasLineOfSight(entity, player, world)`. -/
def processNotice (n : Notice) (visible inRangeAndSight : Bool) : Notice :=
  if !visible then n
  else if inRangeAndSight then
    if !n.hasNoticed then
      let t := n.noticeTimer + 1
      if t ≥ n.noticeDelay then { n with noticeTimer := t, hasNoticed := true }
      else { n with noticeTimer := t }
    else n
  else
    if n.hasNoticed then { n with hasNoticed := false, noticeTimer := 0 }
    else n

/-- Suspicious phase: timer has started but the monster is not yet hostile. -/
def Notice.suspicious (n : Notice) : Prop :=
  n.hasNoticed = false ∧ 0 < n.noticeTimer ∧ n.noticeTimer < n.noticeDelay

/-! ### Entity data model

From `src/unnamed/part_007` (class `Entity`) and the components attached by the
combat, skills and equipment systems. Components an entity may lack are
`Option`s (JS `getComponent` returning `undefined`). -/

structure Item where
  type : String
  damage : ℚ := 0
  speed : ℚ := 1
  defense : ℚ := 0
  deriving Repr, DecidableEq

structure Stats where
  strength : ℚ := 10
  dexterity : ℚ := 10
  agility : ℚ := 10
  constitution : ℚ := 10
  intelligence : ℚ := 10
  deriving Repr, DecidableEq

/-- Equipment slot set: the legacy `weapon`/`armor` slots, the `primary` and
`secondary` slots, and the nine armor slots summed by `calculateDefense`. -/
structure Equipment where
  primary : Option Item := none
  weapon : Option Item := none
  secondary : Option Item := none
  armor : Option Item := none
  helm : Option Item := none
  shoulder : Option Item := none
  chest : Option Item := none
  arms : Option Item := none
  legs : Option Item := none
  wrist1 : Option Item := none
  wrist2 : Option Item := none
  hands : Option Item := none
  feet : Option Item := none
  deriving Repr, DecidableEq

structure Health where
  current : ℚ
  max : ℚ
  deriving Repr, DecidableEq

structure Skill where
  level : Nat
  experience : ℚ
  maxExperience : ℚ
  deriving Repr, DecidableEq

/-- The `skills` component: a JS object keyed by skill name. -/
abbrev Skills := List (String × Skill)

structure LastAttack where
  time : ℚ
  deriving Repr, DecidableEq

structure LevelComp where
  value : Nat
  experience : ℚ := 0
  experienceToNext : ℚ := 0
  deriving Repr, DecidableEq

structure GoldComp where
  amount : ℚ
  deriving Repr, DecidableEq

structure GoldRange where
  min : ℚ
  max : ℚ
  deriving Repr, DecidableEq

structure Loot where
  gold : Option GoldRange := none
  items : List String := []
  deriving Repr, DecidableEq

structure CorpseComp where
  monsterType : String
  looted : Bool
  deriving Repr, DecidableEq

structure Entity where
  id : String
  type : String
  x : ℚ := 0
  y : ℚ := 0
  active : Bool := true
  health : Option Health := none
  stats : Option Stats := none
  equipment : Option Equipment := none
  skills : Option Skills := none
  lastAttack : Option LastAttack := none
  level : Option LevelComp := none
  gold : Option GoldComp := none
  loot : Option Loot := none
  corpse : Option CorpseComp := none
  monsterType : Option String := none
  deriving Repr, DecidableEq

/-! ### Skills system

From `src/unnamed/part_004`, class `SkillsSystem`. -/

/-- Association-list lookup mirroring `skills[skillName]`. -/
def Skills.find (s : Skills) (name : String) : Option Skill :=
  List.lookup name s

/-- In-place mutation of an existing entry (`skill.level++` etc. act on the
object stored in the `skills` map). -/
def Skills.setSkill : Skills → String → Skill → Skills
  | [], _, _ => []
  | (k, v) :: rest, name, sk =>
    if k = name then (k, sk) :: rest else (k, v) :: Skills.setSkill rest name sk

/-- `weaponSkillMapping[weaponType] || '1h_slash'` from `SkillsSystem`. -/
def weaponSkillMapping (weaponType : String) : String :=
  if weaponType = "sword" then "1h_slash"
  else if weaponType = "longsword" then "2h_slash"
  else if weaponType = "mace" then "1h_blunt"
  else if weaponType = "warhammer" then "2h_blunt"
  else if weaponType = "dagger" then "1h_pierce"
  else if weaponType = "spear" then "2h_pierce"
  else if weaponType = "unarmed" then "hand_to_hand"
  else "1h_slash"

/-- The skill-level cap computed in `gainSkillExperience`:
`playerLevel ? playerLevel.value * 5 : 5`. -/
def skillLevelCap (e : Entity) : Nat :=
  match e.level with
  | some l => l.value * 5
  | none => 5

/-- The `while (skill.experience >= skill.maxExperience && skill.level < maxSkillLevel)`
loop of `gainSkillExperience`; returns the final skill record and whether at
least one level was gained. -/
def Skill.levelUpLoop (sk : Skill) (cap : Nat) : Skill × Bool :=
  if _h : sk.maxExperience ≤ sk.experience ∧ sk.level < cap then
    let sk' : Skill :=
      { level := sk.level + 1
        experience := sk.experience - sk.maxExperience
        maxExperience := ((⌊sk.maxExperience * (11/10 : ℚ)⌋ : ℤ) : ℚ) }
    ((Skill.levelUpLoop sk' cap).1, true)
  else (sk, false)
termination_by cap - sk.level
decreasing_by
  omega

/-- `SkillsSystem.gainSkillExperience(entity, skillName, experience)`.
Returns the updated entity and the `leveledUp` boolean the source returns. -/
def gainSkillExperience (e : Entity) (skillName : String) (experience : ℚ) :
    Entity × Bool :=
  match e.skills with
  | none => (e, false)
  | some skills =>
    match skills.find skillName with
    | none => (e, false)
    | some skill =>
      let maxSkillLevel := skillLevelCap e
      if skill.level ≥ maxSkillLevel then (e, false)
      else
        let skill := { skill with experience := skill.experience + experience }
        let res := skill.levelUpLoop maxSkillLevel
        ({ e with skills := some (skills.setSkill skillName res.1) }, res.2)

/-- Observable skill level (0 when the component or skill is absent). -/
def skillLevel (e : Entity) (name : String) : Nat :=
  match e.skills with
  | none => 0
  | some s =>
    match s.find name with
    | none => 0
    | some sk => sk.level

/-! ### Skill bonuses and equipment-based damage/defense

From `src/unnamed/part_004`: `SkillsSystem.getSkillBonuses`,
`EquipmentSystem.calculateDamage`, `EquipmentSystem.calculateDefense`. -/

structure SkillBonuses where
  damage : ℚ := 0
  hitChance : ℚ := 0
  dodgeChance : ℚ := 0
  blockChance : ℚ := 0
  defense : ℚ := 0
  deriving Repr, DecidableEq

/-- `skills[name] ? skills[name].level : 0` as a rational. -/
def skillLevelQ (s : Skills) (name : String) : ℚ :=
  match s.find name with
  | some sk => (sk.level : ℚ)
  | none => 0

/-- `equipment && equipment.secondary && equipment.secondary.type === 'shield'`. -/
def hasShield (e : Entity) : Bool :=
  match e.equipment with
  | some eq =>
    match eq.secondary with
    | some it => it.type = "shield"
    | none => false
  | none => false

/-- `SkillsSystem.getSkillBonuses(entity, weapon)`. -/
def getSkillBonuses (e : Entity) (weapon : Option Item) : SkillBonuses :=
  match e.skills with
  | none => {}
  | some skills =>
    let weaponPart : ℚ × ℚ :=
      match weapon with
      | some w =>
        let sl := skillLevelQ skills (weaponSkillMapping w.type)
        (sl * (1/2), sl * 2)
      | none => (0, 0)
    let dodgeLevel := skillLevelQ skills "dodge"
    let blockLevel := skillLevelQ skills "block"
    let blockPart : ℚ × ℚ :=
      if hasShield e then (blockLevel * 2, blockLevel * (3/10)) else (0, 0)
    let offenseLevel := skillLevelQ skills "offense"
    let defenseLevel := skillLevelQ skills "defense"
    { damage := weaponPart.1 + offenseLevel * (3/10)
      hitChance := weaponPart.2 + offenseLevel * 1
      dodgeChance := dodgeLevel * (3/2)
      blockChance := blockPart.1
      defense := blockPart.2 + defenseLevel * (1/2) }

structure DamageResult where
  damage : ℚ
  hitChance : ℚ
  swingSpeed : ℚ
  deriving Repr, DecidableEq

/-- `equipment ? (equipment.primary || equipment.weapon) : null`
(the order used by `EquipmentSystem.calculateDamage`). -/
def primaryOrWeapon (e : Entity) : Option Item :=
  match e.equipment with
  | some eq => (eq.primary).orElse (fun _ => eq.weapon)
  | none => none

/-- `EquipmentSystem.calculateDamage(entity)`. -/
def eqCalculateDamage (e : Entity) : DamageResult :=
  match e.stats with
  | none => { damage := 1, hitChance := 50, swingSpeed := 1 }
  | some stats =>
    let strengthBonus : ℚ := ((⌊(stats.strength - 10) * (1/2 : ℚ)⌋ : ℤ) : ℚ)
    let baseDamage : ℚ := 1 + strengthBonus
    let dexterityBonus : ℚ := ((⌊(stats.dexterity - 10) * (3/10 : ℚ)⌋ : ℤ) : ℚ)
    let hitChance : ℚ := 50 + dexterityBonus
    let swingSpeed : ℚ := 1 + (stats.dexterity - 10) * (1/50)
    let afterWeapon : ℚ × ℚ × ℚ :=
      match primaryOrWeapon e with
      | some w =>
        let baseDamage := baseDamage + w.damage
        let swingSpeed := swingSpeed * (if w.speed = 0 then 1 else w.speed)
        let hitChance := hitChance + ((⌊w.damage * (1/2 : ℚ)⌋ : ℤ) : ℚ)
        let sb := getSkillBonuses e (some w)
        (baseDamage + sb.damage, hitChance + sb.hitChance, swingSpeed)
      | none => (baseDamage, hitChance, swingSpeed)
    { damage := max 1 afterWeapon.1
      hitChance := max 10 (min 95 afterWeapon.2.1)
      swingSpeed := max (3/10) (min 2 afterWeapon.2.2) }

/-- `EquipmentSystem.calculateDefense(entity)`. -/
def eqCalculateDefense (e : Entity) : ℚ :=
  let conDefense : ℚ :=
    match e.stats with
    | some s => ((⌊(s.constitution - 10) * (1/5 : ℚ)⌋ : ℤ) : ℚ)
    | none => 0
  let armorDefense : ℚ :=
    match e.equipment with
    | some eq =>
      (match eq.armor with | some a => a.defense | none => 0)
        + ([eq.helm, eq.shoulder, eq.chest, eq.arms, eq.legs,
            eq.wrist1, eq.wrist2, eq.hands, eq.feet].map
            (fun o => match o with | some it => it.defense | none => 0)).sum
    | none => 0
  let sb := getSkillBonuses e none
  max 0 (conDefense + armorDefense + sb.defense)

/-! ### Combat system

From `src/unnamed/part_006`, class `CombatSystem`. Each `Math.random() * 100`
draw that decides combat state is an explicit roll parameter. -/

/-- `CombatSystem.isDead(entity)`. -/
def isDead (e : Entity) : Bool :=
  match e.health with
  | some h => h.current ≤ 0
  | none => false

/-- `CombatSystem.canAttack(attacker, target)`. -/
def canAttack (attacker target : Entity) : Bool :=
  attacker.active && target.active && !(attacker.id = target.id) && !(isDead target)

/-- `CombatSystem.calculateDodge(entity)`; note `!statsComponent.agility`
treats agility 0 as missing (JS falsiness). -/
def calculateDodge (e : Entity) : ℚ :=
  match e.stats with
  | none => 0
  | some s =>
    if s.agility = 0 then 0
    else
      let agilityBonus := (s.agility - 10) * 2
      let totalDodge := max 0 (0 + agilityBonus)
      let totalDodge := totalDodge + (getSkillBonuses e none).dodgeChance
      min 50 totalDodge

/-- `CombatSystem.rollToHit(attacker, target)` with the `Math.random() * 100`
draw as `roll` (the stats-missing branch compares a `[0,1)` draw to `0.5`,
which is the same event as `roll < 50` for the scaled draw). -/
def rollToHit (attacker target : Entity) (roll : ℚ) : Bool :=
  match attacker.stats, target.stats with
  | some as, some _ =>
    let dexBonus := (as.dexterity - 10) * 2
    let dodge := calculateDodge target
    let finalHitChance := max 5 (min 95 (50 + dexBonus - dodge))
    roll < finalHitChance
  | _, _ => roll < 50

/-- `CombatSystem.checkBlock(target)` with the block draw as `roll`. -/
def checkBlock (target : Entity) (roll : ℚ) : Bool :=
  if hasShield target then
    roll < 10 + (getSkillBonuses target none).blockChance
  else false

/-- `CombatSystem.calculateDamage(attacker, target)`:
`Math.max(1, baseDamage - defense)`. -/
def combatCalculateDamage (attacker target : Entity) : ℚ :=
  let dr := eqCalculateDamage attacker
  let defense := eqCalculateDefense target
  max 1 (dr.damage - defense)

/-- `CombatSystem.applyDamage(entity, damage)`:
`health.current = Math.max(0, health.current - damage)`. -/
def applyDamage (e : Entity) (damage : ℚ) : Entity :=
  match e.health with
  | some h => { e with health := some { h with current := max 0 (h.current - damage) } }
  | none => e

/-- `CombatSystem.gainWeaponSkillExperience(attacker)`; note the source reads
`equipment.weapon || equipment.primary` here (legacy slot first). -/
def gainWeaponSkillExperience (attacker : Entity) : Entity :=
  let weapon :=
    match attacker.equipment with
    | some eq => (eq.weapon).orElse (fun _ => eq.primary)
    | none => none
  match weapon with
  | some w =>
    let weaponType := if w.type = "" then "sword" else w.type
    let skillName := weaponSkillMapping weaponType
    let a1 := (gainSkillExperience attacker skillName 2).1
    (gainSkillExperience a1 "offense" 1).1
  | none => attacker

/-- Everything `attackTarget` does to combat state, plus bookkeeping flags used
by the theorems: `appliedDamage` is `some d` exactly when `applyDamage` ran
with amount `d`; `deathTriggered` records that `handleDeath` fires here. -/
structure AttackOutcome where
  result : Bool
  attacker : Entity
  target : Entity
  appliedDamage : Option ℚ := none
  blocked : Bool := false
  dodgeXpGained : Bool := false
  deathTriggered : Bool := false
  deriving Repr, DecidableEq

/-- The cooldown window of `attackTarget`:
`baseAttackSpeed / damageResult.swingSpeed` with `baseAttackSpeed = 6400`. -/
def attackCooldown (attacker : Entity) : ℚ :=
  6400 / (eqCalculateDamage attacker).swingSpeed

/-- `CombatSystem.attackTarget(attacker, target, world)` at wall-clock time
`now`, with the three state-deciding random draws passed explicitly. -/
def attackTarget (attacker target : Entity)
    (now hitRoll blockRoll dodgeRoll : ℚ) : AttackOutcome :=
  if !(canAttack attacker target) then
    { result := false, attacker := attacker, target := target }
  else
    let lastAttackTime := ((attacker.lastAttack).getD ⟨0⟩).time
    if now - lastAttackTime < attackCooldown attacker then
      { result := false, attacker := attacker, target := target }
    else
      let attacker := { attacker with lastAttack := some ⟨now⟩ }
      let damage := combatCalculateDamage attacker target
      let hit := rollToHit attacker target hitRoll
      if hit then
        let blocked := checkBlock target blockRoll
        let target := if blocked then (gainSkillExperience target "block" 5).1 else target
        let finalDamage : ℚ := if blocked then ((⌊damage * (1/2 : ℚ)⌋ : ℤ) : ℚ) else damage
        let target := applyDamage target finalDamage
        let death := isDead target
        let attacker := gainWeaponSkillExperience attacker
        { result := true, attacker := attacker, target := target,
          appliedDamage := some finalDamage, blocked := blocked,
          deathTriggered := death }
      else
        let dodgeChance := calculateDodge target
        let dodged := dodgeRoll < dodgeChance
        let target := if dodged then (gainSkillExperience target "dodge" 3).1 else target
        { result := false, attacker := attacker, target := target,
          dodgeXpGained := dodged }

/-! ### Helper lemmas for the skills system -/

theorem find_setSkill_self (s : Skills) (n : String) (sk r : Skill)
    (h : s.find n = some sk) : (s.setSkill n r).find n = some r := by
  induction s with
  | nil => simp [Skills.find, List.lookup] at h
  | cons hd tl ih =>
    obtain ⟨k, v⟩ := hd
    by_cases hk : k = n
    · subst hk
      simp [Skills.setSkill, Skills.find, List.lookup]
    · have hne : (n == k) = false := by
        simp only [beq_eq_false_iff_ne, ne_eq]
        exact fun he => hk he.symm
      simp only [Skills.setSkill, if_neg hk]
      simp only [Skills.find, List.lookup, hne] at h ⊢
      exact ih h

theorem find_setSkill_ne (s : Skills) (n name : String) (r : Skill)
    (h : name ≠ n) : (s.setSkill n r).find name = s.find name := by
  induction s with
  | nil => simp [Skills.setSkill]
  | cons hd tl ih =>
    obtain ⟨k, v⟩ := hd
    by_cases hk : k = n
    · subst hk
      have hne : (name == k) = false := by
        simp only [beq_eq_false_iff_ne, ne_eq]
        exact h
      simp only [Skills.setSkill, if_pos rfl]
      simp only [Skills.find, List.lookup, hne]
    · simp only [Skills.setSkill, if_neg hk]
      by_cases hnk : name = k
      · subst hnk
        simp [Skills.find, List.lookup]
      · have hne : (name == k) = false := by
          simp only [beq_eq_false_iff_ne, ne_eq]
          exact hnk
        simp only [Skills.find, List.lookup, hne] at ih ⊢
        exact ih

/-- The level-up loop never pushes the level past the cap. -/
theorem levelUpLoop_level_le (sk : Skill) (cap : Nat) (h : sk.level ≤ cap) :
    (sk.levelUpLoop cap).1.level ≤ cap := by
  rw [Skill.levelUpLoop]
  split
  · next hcond =>
    exact levelUpLoop_level_le _ cap hcond.2
  · exact h
termination_by cap - sk.level
decreasing_by omega

/-- `gainSkillExperience` never changes the owner's level component. -/
theorem gain_level_component_eq (e : Entity) (n : String) (x : ℚ) :
    ((gainSkillExperience e n x).1).level = e.level := by
  cases hs : e.skills with
  | none => simp [gainSkillExperience, hs]
  | some s =>
    cases hf : s.find n with
    | none => simp [gainSkillExperience, hs, hf]
    | some sk =>
      by_cases hc : skillLevelCap e ≤ sk.level
      · simp [gainSkillExperience, hs, hf, hc]
      · simp [gainSkillExperience, hs, hf, hc]

/-- The cap itself is invariant under skill-experience gain. -/
theorem gain_cap_eq (e : Entity) (n : String) (x : ℚ) :
    skillLevelCap ((gainSkillExperience e n x).1) = skillLevelCap e := by
  unfold skillLevelCap
  rw [gain_level_component_eq]

/-- One `gainSkillExperience` call keeps every skill level at or below the cap. -/
theorem skillLevel_gain_le (e : Entity) (n : String) (x : ℚ) (name : String)
    (h : skillLevel e name ≤ skillLevelCap e) :
    skillLevel ((gainSkillExperience e n x).1) name ≤ skillLevelCap e := by
  cases hs : e.skills with
  | none => simpa [gainSkillExperience, hs] using h
  | some s =>
    cases hf : s.find n with
    | none => simpa [gainSkillExperience, hs, hf] using h
    | some sk =>
      by_cases hc : skillLevelCap e ≤ sk.level
      · simpa [gainSkillExperience, hs, hf, hc] using h
      · by_cases hn : name = n
        · subst hn
          simp only [gainSkillExperience, hs, hf, ge_iff_le, if_neg hc]
          simp only [skillLevel,
            find_setSkill_self s name sk _ hf]
          exact levelUpLoop_level_le _ _ (Nat.le_of_lt (Nat.not_le.mp hc))
        · simp only [gainSkillExperience, hs, hf, ge_iff_le, if_neg hc]
          simp only [skillLevel, find_setSkill_ne s n name _ hn]
          simpa [skillLevel, hs] using h

/-- Folding a whole sequence of `gainSkillExperience` calls. -/
def applySkillCalls (e : Entity) (calls : List (String × ℚ)) : Entity :=
  calls.foldl (fun acc c => (gainSkillExperience acc c.1 c.2).1) e

/-- Claim C7: for every entity and skill, any sequence of `gainSkillExperience`
calls never raises `skill.level` above `ownerLevel * 5` (the cap computed by
the source, which is 5 when the level component is absent), and once the skill
is at the cap a further call is a no-op: the entity is returned unchanged (no
experience accumulated) and `false` is returned. -/
theorem skill_cap_invariant (e : Entity) (calls : List (String × ℚ)) (name : String)
    (h : skillLevel e name ≤ skillLevelCap e) :
    skillLevel (applySkillCalls e calls) name ≤ skillLevelCap e ∧
    (∀ e' n x, skillLevelCap e' ≤ skillLevel e' n →
      gainSkillExperience e' n x = (e', false)) := by
  constructor
  · induction calls generalizing e with
    | nil => simpa [applySkillCalls] using h
    | cons c rest ih =>
      have h1 := skillLevel_gain_le e c.1 c.2 name h
      have hcap := gain_cap_eq e c.1 c.2
      have := ih ((gainSkillExperience e c.1 c.2).1) (by rw [hcap]; exact h1)
      simpa [applySkillCalls, hcap] using this
  · intro e' n x hcap
    cases hs : e'.skills with
    | none => simp [gainSkillExperience, hs]
    | some s =>
      cases hf : s.find n with
      | none => simp [gainSkillExperience, hs, hf]
      | some sk =>
        have hge : skillLevelCap e' ≤ sk.level := by
          simpa [skillLevel, hs, hf] using hcap
        simp [gainSkillExperience, hs, hf, hge]

/-- Witness for C7 at a concrete entity: a level-1 owner (cap 5), dodge skill
level 2, after a large experience gain the level is still at most 5, and a
capped skill refuses further gain. -/
theorem skill_cap_invariant_witness :
    skillLevel
        { id := "p", type := "player",
          skills := some [("dodge", ⟨2, 0, 20⟩)],
          level := some { value := 1 } }
        "dodge" ≤
      skillLevelCap
        { id := "p", type := "player",
          skills := some [("dodge", ⟨2, 0, 20⟩)],
          level := some { value := 1 } } ∧
    (skillLevel
        (applySkillCalls
          { id := "p", type := "player",
            skills := some [("dodge", ⟨2, 0, 20⟩)],
            level := some { value := 1 } }
          [("dodge", 100000)])
        "dodge" ≤
      skillLevelCap
        { id := "p", type := "player",
          skills := some [("dodge", ⟨2, 0, 20⟩)],
          level := some { value := 1 } } ∧
    (∀ e' n x, skillLevelCap e' ≤ skillLevel e' n →
      gainSkillExperience e' n x = (e', false))) :=
  ⟨by decide,
    skill_cap_invariant
      { id := "p", type := "player",
        skills := some [("dodge", ⟨2, 0, 20⟩)],
        level := some { value := 1 } }
      [("dodge", 100000)] "dodge" (by decide)⟩

/-! ### Theorems about the notice state machine -/

/-- Claim C5 counterexample: a Suspicious monster (timer 1, threshold 3,
not yet hostile) whose range-plus-sight condition breaks does NOT get its
timer reset to 0 — the source resets only when `hasNoticed` is true. -/
theorem notice_suspicious_reset_counterexample :
    ¬ ((processNotice ⟨false, 1, 3⟩ true false).noticeTimer = 0) := by
  decide

/-- Claim C5 (amended): when the qualifying range-plus-sight condition breaks
for a monster that has not yet fully noticed the player (Unaware or
Suspicious), the notice component is left entirely unchanged — the timer is
frozen, not reset; only a fully-noticed (Hostile) monster is reset to Unaware
with timer 0. -/
theorem notice_suspicious_break_freezes (n : Notice) (h : n.hasNoticed = false) :
    processNotice n true false = n := by
  simp [processNotice, h]

/-- Witness for the amended C5 at the concrete Suspicious component. -/
theorem notice_suspicious_break_freezes_witness :
    processNotice ⟨false, 1, 3⟩ true false = ⟨false, 1, 3⟩ :=
  notice_suspicious_break_freezes ⟨false, 1, 3⟩ rfl

/-- Claim C6 counterexample: a fully Hostile monster (timer at threshold) that
loses the range-plus-sight condition while visible does NOT stay Hostile — the
source resets `hasNoticed` to false and the timer to 0 ("loses interest"). -/
theorem hostile_persists_counterexample :
    ¬ ((processNotice ⟨true, 3, 3⟩ true false).hasNoticed = true) := by
  decide

/-- Claim C6 (amended): a Hostile monster stays Hostile only while the
range-plus-sight condition holds (or while the whole update is skipped because
the monster is outside the player's field of view); on a visible turn where the
condition breaks, the monster reverts to Unaware with timer 0 — it is the
Suspicious timer that survives condition breaks, not Hostility. -/
theorem hostile_until_condition_breaks (n : Notice) (q : Bool) (h : n.hasNoticed = true) :
    processNotice n true true = n ∧
    processNotice n false q = n ∧
    (processNotice n true false).hasNoticed = false ∧
    (processNotice n true false).noticeTimer = 0 := by
  refine ⟨?_, ?_, ?_, ?_⟩ <;> simp [processNotice, h]

/-- Witness for the amended C6 at a concrete Hostile component. -/
theorem hostile_until_condition_breaks_witness :
    processNotice ⟨true, 3, 3⟩ true true = ⟨true, 3, 3⟩ ∧
    processNotice ⟨true, 3, 3⟩ false false = ⟨true, 3, 3⟩ ∧
    (processNotice ⟨true, 3, 3⟩ true false).hasNoticed = false ∧
    (processNotice ⟨true, 3, 3⟩ true false).noticeTimer = 0 :=
  hostile_until_condition_breaks ⟨true, 3, 3⟩ false rfl

/-! ### Combat helper lemmas -/

/-- Skill-experience gain touches only the `skills` component. -/
theorem gain_skills_only (e : Entity) (n : String) (x : ℚ) :
    ∃ sk, (gainSkillExperience e n x).1 = { e with skills := sk } := by
  cases hs : e.skills with
  | none =>
    refine ⟨e.skills, ?_⟩
    have hrw : gainSkillExperience e n x = (e, false) := by
      simp [gainSkillExperience, hs]
    rw [hrw]
  | some s =>
    cases hf : s.find n with
    | none =>
      refine ⟨e.skills, ?_⟩
      have hrw : gainSkillExperience e n x = (e, false) := by
        simp [gainSkillExperience, hs, hf]
      rw [hrw]
    | some sk =>
      by_cases hc : skillLevelCap e ≤ sk.level
      · refine ⟨e.skills, ?_⟩
        have hrw : gainSkillExperience e n x = (e, false) := by
          simp [gainSkillExperience, hs, hf, hc]
        rw [hrw]
      · refine ⟨some (s.setSkill n
          ({ sk with experience := sk.experience + x }.levelUpLoop (skillLevelCap e)).1), ?_⟩
        simp [gainSkillExperience, hs, hf, hc]

/-- Weapon-skill experience gain touches only the `skills` component. -/
theorem gainWeapon_skills_only (e : Entity) :
    ∃ sk, gainWeaponSkillExperience e = { e with skills := sk } := by
  cases he : e.equipment with
  | none =>
    refine ⟨e.skills, ?_⟩
    have hrw : gainWeaponSkillExperience e = e := by
      simp [gainWeaponSkillExperience, he]
    rw [hrw, ← he]
  | some eq =>
    cases hw : (eq.weapon).orElse (fun _ => eq.primary) with
    | none =>
      refine ⟨e.skills, ?_⟩
      have hrw : gainWeaponSkillExperience e = e := by
        simp [gainWeaponSkillExperience, he, hw]
      rw [hrw, ← he]
    | some w =>
      obtain ⟨s1, h1⟩ := gain_skills_only e
        (weaponSkillMapping (if w.type = "" then "sword" else w.type)) 2
      obtain ⟨s2, h2⟩ := gain_skills_only
        ((gainSkillExperience e
          (weaponSkillMapping (if w.type = "" then "sword" else w.type)) 2).1) "offense" 1
      refine ⟨s2, ?_⟩
      simp only [gainWeaponSkillExperience, he, hw]
      rw [h2, h1, ← he]

/-- The computed swing speed depends only on the stats and equipment
components (skill bonuses feed damage and hit chance only). -/
theorem swingSpeed_congr (e e' : Entity) (hs : e'.stats = e.stats)
    (he : e'.equipment = e.equipment) :
    (eqCalculateDamage e').swingSpeed = (eqCalculateDamage e).swingSpeed := by
  have hpw : primaryOrWeapon e' = primaryOrWeapon e := by
    unfold primaryOrWeapon
    rw [he]
  cases hst : e.stats with
  | none => simp [eqCalculateDamage, hs, hst]
  | some s =>
    cases hw : primaryOrWeapon e with
    | none => simp [eqCalculateDamage, hs, hst, hpw, hw]
    | some w => simp [eqCalculateDamage, hs, hst, hpw, hw]

/-- Hence the attack cooldown window is unchanged by skill-experience gain. -/
theorem attackCooldown_gainWeapon (e : Entity) :
    attackCooldown (gainWeaponSkillExperience e) = attackCooldown e := by
  obtain ⟨sk, hsk⟩ := gainWeapon_skills_only e
  unfold attackCooldown
  rw [hsk, swingSpeed_congr { e with skills := sk } e rfl rfl]

/-- Claim C2: with a fresh cooldown, a first `attackTarget` call that lands a
hit applies damage exactly once; a second call issued less than the required
gap (`6400 / weaponSpeedMultiplier` wall-clock ms) after the first applies no
damage, returns `false`, and leaves both entities — in particular the
attacker's last-attack timestamp — untouched. -/
theorem attack_cooldown_invariant (attacker target : Entity)
    (t1 t2 hr1 br1 dr1 hr2 br2 dr2 : ℚ)
    (hcan : canAttack attacker target = true)
    (hcd : attackCooldown attacker ≤ t1 - ((attacker.lastAttack).getD ⟨0⟩).time)
    (hhit : rollToHit attacker target hr1 = true)
    (hgap : t2 - t1 < attackCooldown attacker) :
    ((attackTarget attacker target t1 hr1 br1 dr1).appliedDamage).isSome = true ∧
    (attackTarget (attackTarget attacker target t1 hr1 br1 dr1).attacker
        (attackTarget attacker target t1 hr1 br1 dr1).target t2 hr2 br2 dr2) =
      { result := false,
        attacker := (attackTarget attacker target t1 hr1 br1 dr1).attacker,
        target := (attackTarget attacker target t1 hr1 br1 dr1).target } := by
  have hcd' : ¬ (t1 - ((attacker.lastAttack).getD ⟨0⟩).time < attackCooldown attacker) :=
    not_lt.mpr hcd
  have hhit' : rollToHit { attacker with lastAttack := some ⟨t1⟩ } target hr1 = true := hhit
  have happ : ((attackTarget attacker target t1 hr1 br1 dr1).appliedDamage).isSome = true := by
    simp only [attackTarget, hcan, Bool.not_true, Bool.false_eq_true, if_false,
      if_neg hcd', hhit', if_true, Option.isSome_some]
  have hA : (attackTarget attacker target t1 hr1 br1 dr1).attacker =
      gainWeaponSkillExperience { attacker with lastAttack := some ⟨t1⟩ } := by
    simp only [attackTarget, hcan, Bool.not_true, Bool.false_eq_true, if_false,
      if_neg hcd', hhit', if_true]
  obtain ⟨sk, hsk⟩ := gainWeapon_skills_only { attacker with lastAttack := some ⟨t1⟩ }
  have hlast : ((attackTarget attacker target t1 hr1 br1 dr1).attacker).lastAttack =
      some ⟨t1⟩ := by
    rw [hA, hsk]
  have hcool : attackCooldown ((attackTarget attacker target t1 hr1 br1 dr1).attacker) =
      attackCooldown attacker := by
    rw [hA, attackCooldown_gainWeapon]
    unfold attackCooldown
    rw [swingSpeed_congr { attacker with lastAttack := some ⟨t1⟩ } attacker rfl rfl]
  refine ⟨happ, ?_⟩
  set out1 := attackTarget attacker target t1 hr1 br1 dr1
  by_cases hcan2 : canAttack out1.attacker out1.target = true
  · simp only [attackTarget, hcan2, Bool.not_true, Bool.false_eq_true, if_false,
      hlast, Option.getD_some, hcool, if_pos hgap]
  · rw [Bool.not_eq_true] at hcan2
    simp only [attackTarget, hcan2, Bool.not_false, if_true]

/-! ### Concrete entities used by the combat witnesses -/

/-- A plain monster with average stats and no equipment. -/
def sampleAttacker : Entity := { id := "a", type := "monster", stats := some {} }

/-- A plain player with 10/10 health and average stats. -/
def samplePlayer : Entity :=
  { id := "b", type := "player", health := some ⟨10, 10⟩, stats := some {} }

/-- Witness for C2: the monster attacks the player at wall time 100000 (hit),
then again 1 ms later — inside the 6400 ms cooldown — and the second call is
rejected without touching any state. -/
theorem attack_cooldown_invariant_witness :
    ((attackTarget sampleAttacker samplePlayer 100000 0 0 0).appliedDamage).isSome = true ∧
    (attackTarget (attackTarget sampleAttacker samplePlayer 100000 0 0 0).attacker
        (attackTarget sampleAttacker samplePlayer 100000 0 0 0).target 100001 0 0 0) =
      { result := false,
        attacker := (attackTarget sampleAttacker samplePlayer 100000 0 0 0).attacker,
        target := (attackTarget sampleAttacker samplePlayer 100000 0 0 0).target } := by
  have hab : ("a" : String) ≠ "b" := by decide
  refine attack_cooldown_invariant sampleAttacker samplePlayer 100000 100001 0 0 0 0 0 0
    ?_ ?_ ?_ ?_
  · norm_num [canAttack, isDead, sampleAttacker, samplePlayer, hab]
  · norm_num [attackCooldown, eqCalculateDamage, primaryOrWeapon, sampleAttacker]
  · norm_num [rollToHit, calculateDodge, getSkillBonuses, sampleAttacker, samplePlayer]
  · norm_num [attackCooldown, eqCalculateDamage, primaryOrWeapon, sampleAttacker]

/-- A player holding a shield in the secondary slot. -/
def shieldPlayer : Entity :=
  { id := "b", type := "player", health := some ⟨10, 10⟩, stats := some {},
    equipment := some { secondary := some { type := "shield" } } }

/-- Claim C3 counterexample: the monster's hit on the shield-bearing player is
successful and blocked, the pre-block damage is the floor value 1, and the
damage actually applied is `floor(1 * 0.5) = 0` — a successful hit that deals
less than 1 damage, contradicting the claim's "including when the defender
blocks" part. -/
theorem damage_floor_counterexample :
    (attackTarget sampleAttacker shieldPlayer 100000 0 0 0).result = true ∧
    (attackTarget sampleAttacker shieldPlayer 100000 0 0 0).blocked = true ∧
    (attackTarget sampleAttacker shieldPlayer 100000 0 0 0).appliedDamage = some 0 := by
  have hab : ("a" : String) ≠ "b" := by decide
  norm_num [attackTarget, canAttack, isDead, attackCooldown, eqCalculateDamage,
    primaryOrWeapon, rollToHit, calculateDodge, getSkillBonuses, checkBlock, hasShield,
    combatCalculateDamage, eqCalculateDefense, applyDamage, gainSkillExperience,
    gainWeaponSkillExperience, sampleAttacker, shieldPlayer, hab]

/-- Claim C3 (amended): the pre-mitigation damage of a successful hit equals
`max(1, baseDamage − defense)` and hence is at least 1; an unblocked hit
applies exactly that amount, but a blocked hit applies `floor(damage * 0.5)`,
which is 0 whenever the pre-block damage is 1 — the ≥ 1 floor holds for
unblocked hits only. -/
theorem damage_floor_amended (attacker target : Entity) (now hr br dr : ℚ)
    (hcan : canAttack attacker target = true)
    (hcd : attackCooldown attacker ≤ now - ((attacker.lastAttack).getD ⟨0⟩).time)
    (hhit : rollToHit attacker target hr = true) :
    1 ≤ combatCalculateDamage attacker target ∧
    combatCalculateDamage attacker target =
      max 1 ((eqCalculateDamage attacker).damage - eqCalculateDefense target) ∧
    (attackTarget attacker target now hr br dr).appliedDamage =
      some (if checkBlock target br
        then ((⌊combatCalculateDamage attacker target * (1/2 : ℚ)⌋ : ℤ) : ℚ)
        else combatCalculateDamage attacker target) := by
  have hcd' : ¬ (now - ((attacker.lastAttack).getD ⟨0⟩).time < attackCooldown attacker) :=
    not_lt.mpr hcd
  have hhit' : rollToHit { attacker with lastAttack := some ⟨now⟩ } target hr = true := hhit
  have hdam : combatCalculateDamage { attacker with lastAttack := some ⟨now⟩ } target =
      combatCalculateDamage attacker target := rfl
  refine ⟨le_max_left 1 _, rfl, ?_⟩
  simp only [attackTarget, hcan, Bool.not_true, Bool.false_eq_true, if_false,
    if_neg hcd', hhit', if_true, hdam]

/-- Witness for the amended C3: at the concrete blocked attack the pre-block
damage is 1 (= max(1, 1-0)) and the applied damage is the halved floor. -/
theorem damage_floor_amended_witness :
    1 ≤ combatCalculateDamage sampleAttacker shieldPlayer ∧
    combatCalculateDamage sampleAttacker shieldPlayer =
      max 1 ((eqCalculateDamage sampleAttacker).damage - eqCalculateDefense shieldPlayer) ∧
    (attackTarget sampleAttacker shieldPlayer 100000 0 0 0).appliedDamage =
      some (if checkBlock shieldPlayer 0
        then ((⌊combatCalculateDamage sampleAttacker shieldPlayer * (1/2 : ℚ)⌋ : ℤ) : ℚ)
        else combatCalculateDamage sampleAttacker shieldPlayer) := by
  have hab : ("a" : String) ≠ "b" := by decide
  refine damage_floor_amended sampleAttacker shieldPlayer 100000 0 0 0 ?_ ?_ ?_
  · norm_num [canAttack, isDead, sampleAttacker, shieldPlayer, hab]
  · norm_num [attackCooldown, eqCalculateDamage, primaryOrWeapon, sampleAttacker]
  · norm_num [rollToHit, calculateDodge, getSkillBonuses, sampleAttacker, shieldPlayer]

/-- A player with agility 15 (dodge chance 10%) and a dodge skill to train. -/
def agilePlayer : Entity :=
  { id := "b", type := "player", health := some ⟨10, 10⟩,
    stats := some { agility := 15 },
    skills := some [("dodge", ⟨0, 0, 20⟩)] }

/-- Claim C4 counterexample: with hit roll 60 the attack also misses a
dodge-less defender (no-dodge hit chance 50), so this miss is caused by the
attacker's hit chance alone; yet the agile defender's dodge skill is granted
experience (0 → 3) because the fresh, independent dodge roll 5 succeeds. -/
theorem dodge_xp_counterexample :
    rollToHit sampleAttacker samplePlayer 60 = false ∧
    rollToHit sampleAttacker agilePlayer 60 = false ∧
    (attackTarget sampleAttacker agilePlayer 100000 60 0 5).dodgeXpGained = true ∧
    (attackTarget sampleAttacker agilePlayer 100000 60 0 5).target.skills =
      some [("dodge", ⟨0, 3, 20⟩)] := by
  have hab : ("a" : String) ≠ "b" := by decide
  have hdodge : calculateDodge agilePlayer = 10 := by
    norm_num [calculateDodge, agilePlayer, getSkillBonuses, skillLevelQ, Skills.find,
      List.lookup, hasShield]
  have hmiss : rollToHit sampleAttacker agilePlayer 60 = false := by
    norm_num [rollToHit, show sampleAttacker.stats = some {} from rfl,
      show agilePlayer.stats = some { agility := 15 } from rfl, hdodge]
  have hmiss0 : rollToHit sampleAttacker samplePlayer 60 = false := by
    norm_num [rollToHit, calculateDodge, getSkillBonuses, sampleAttacker, samplePlayer]
  have hcan : canAttack sampleAttacker agilePlayer = true := by
    norm_num [canAttack, isDead, sampleAttacker, agilePlayer, hab]
  have hcd' : ¬ ((100000 : ℚ) - ((sampleAttacker.lastAttack).getD ⟨0⟩).time <
      attackCooldown sampleAttacker) := by
    norm_num [attackCooldown, eqCalculateDamage, primaryOrWeapon, sampleAttacker]
  have hmiss' : rollToHit { sampleAttacker with lastAttack := some ⟨100000⟩ }
      agilePlayer 60 = false := hmiss
  have hloop : Skill.levelUpLoop ⟨0, 3, 20⟩ 5 = (⟨0, 3, 20⟩, false) := by
    rw [Skill.levelUpLoop]
    norm_num
  have hgain : gainSkillExperience agilePlayer "dodge" 3 =
      ({ agilePlayer with skills := some [("dodge", ⟨0, 3, 20⟩)] }, false) := by
    norm_num [gainSkillExperience, agilePlayer, Skills.find, List.lookup, skillLevelCap,
      Skills.setSkill, hloop]
  have hout : attackTarget sampleAttacker agilePlayer 100000 60 0 5 =
      { result := false, attacker := { sampleAttacker with lastAttack := some ⟨100000⟩ },
        target := (gainSkillExperience agilePlayer "dodge" 3).1,
        dodgeXpGained := true } := by
    simp only [attackTarget, hcan, Bool.not_true, Bool.false_eq_true, if_false,
      if_neg hcd', hmiss', if_true]
    norm_num [hdodge]
  refine ⟨hmiss0, hmiss, by rw [hout], ?_⟩
  rw [hout]
  simp only [hgain]

/-- Claim C4 (amended): on every resolved miss, a fresh independent roll
against the defender's dodge chance decides the dodge-experience grant,
regardless of whether the dodge contribution caused the miss: the defender
gains dodge experience iff that roll is below `calculateDodge(target)`. -/
theorem dodge_xp_amended (attacker target : Entity) (now hr br dr : ℚ)
    (hcan : canAttack attacker target = true)
    (hcd : attackCooldown attacker ≤ now - ((attacker.lastAttack).getD ⟨0⟩).time)
    (hmiss : rollToHit attacker target hr = false) :
    (attackTarget attacker target now hr br dr).result = false ∧
    (attackTarget attacker target now hr br dr).dodgeXpGained =
      decide (dr < calculateDodge target) ∧
    (attackTarget attacker target now hr br dr).target =
      (if dr < calculateDodge target
        then (gainSkillExperience target "dodge" 3).1 else target) := by
  have hcd' : ¬ (now - ((attacker.lastAttack).getD ⟨0⟩).time < attackCooldown attacker) :=
    not_lt.mpr hcd
  have hmiss' : rollToHit { attacker with lastAttack := some ⟨now⟩ } target hr = false := hmiss
  refine ⟨?_, ?_, ?_⟩ <;>
    simp only [attackTarget, hcan, Bool.not_true, Bool.false_eq_true, if_false,
      if_neg hcd', hmiss', if_true, decide_eq_true_eq]

/-- Witness for the amended C4 at the concrete missing attack: the dodge roll
5 is below the 10% dodge chance, so the grant fires on this miss. -/
theorem dodge_xp_amended_witness :
    (attackTarget sampleAttacker agilePlayer 100000 60 0 5).result = false ∧
    (attackTarget sampleAttacker agilePlayer 100000 60 0 5).dodgeXpGained =
      decide ((5 : ℚ) < calculateDodge agilePlayer) ∧
    (attackTarget sampleAttacker agilePlayer 100000 60 0 5).target =
      (if (5 : ℚ) < calculateDodge agilePlayer
        then (gainSkillExperience agilePlayer "dodge" 3).1 else agilePlayer) := by
  have hab : ("a" : String) ≠ "b" := by decide
  refine dodge_xp_amended sampleAttacker agilePlayer 100000 60 0 5 ?_ ?_ ?_
  · norm_num [canAttack, isDead, sampleAttacker, agilePlayer, hab]
  · norm_num [attackCooldown, eqCalculateDamage, primaryOrWeapon, sampleAttacker]
  · norm_num [rollToHit, calculateDodge, getSkillBonuses, skillLevelQ, Skills.find,
      List.lookup, sampleAttacker, agilePlayer]

/-! ### Priority queue

From `src/public/js/priorityQueue.js`: an array-based binary min-heap of
`{ item, priority }` nodes, keyed by priority (lower pops first). The heap
stores entity references; here a node stores the entity id, and liveness is
read through an activity environment when popping (the reference semantics of
the source). -/

structure HeapNode where
  item : String
  priority : ℚ
  deriving Repr, DecidableEq

instance : Inhabited HeapNode := ⟨⟨"", 0⟩⟩

abbrev Heap := List HeapNode

/-- Array read `this.heap[i]` (callers stay in bounds). -/
def nodeAt (h : Heap) (i : ℕ) : HeapNode := h.getD i default

def prioAt (h : Heap) (i : ℕ) : ℚ := (nodeAt h i).priority

/-- `Math.floor((index - 1) / 2)`. -/
def parentIdx (i : ℕ) : ℕ := (i - 1) / 2

/-- The destructuring swap `[heap[i], heap[j]] = [heap[j], heap[i]]`. -/
def swap (h : Heap) (i j : ℕ) : Heap :=
  (h.set i (nodeAt h j)).set j (nodeAt h i)

/-- `PriorityQueue._bubbleUp(index)`. -/
def bubbleUp (h : Heap) (i : ℕ) : Heap :=
  if _hz : i = 0 then h
  else
    if prioAt h i < prioAt h (parentIdx i) then
      bubbleUp (swap h i (parentIdx i)) (parentIdx i)
    else h
termination_by i
decreasing_by
  simp only [parentIdx]
  omega

/-- `PriorityQueue.push(item, priority)`: append then bubble up from the last
index. -/
def heapPush (h : Heap) (item : String) (priority : ℚ) : Heap :=
  bubbleUp (h ++ [⟨item, priority⟩]) h.length

/-- The `smallest` index computed by `_bubbleDown`: the left child if in range
and strictly smaller, then the right child if in range and strictly smaller
than the current candidate. -/
def downTarget (h : Heap) (i : ℕ) : ℕ :=
  let l := 2 * i + 1
  let r := 2 * i + 2
  let s1 := if l < h.length ∧ prioAt h l < prioAt h i then l else i
  if r < h.length ∧ prioAt h r < prioAt h s1 then r else s1

theorem downTarget_cases (h : Heap) (i : ℕ) :
    downTarget h i = i ∨
    ((downTarget h i = 2 * i + 1 ∨ downTarget h i = 2 * i + 2) ∧
      downTarget h i < h.length ∧ i < downTarget h i) := by
  simp only [downTarget]
  by_cases hl : 2 * i + 1 < h.length ∧ prioAt h (2 * i + 1) < prioAt h i
  · rw [if_pos hl]
    by_cases hr : 2 * i + 2 < h.length ∧ prioAt h (2 * i + 2) < prioAt h (2 * i + 1)
    · rw [if_pos hr]
      exact Or.inr ⟨Or.inr rfl, hr.1, by omega⟩
    · rw [if_neg hr]
      exact Or.inr ⟨Or.inl rfl, hl.1, by omega⟩
  · rw [if_neg hl]
    by_cases hr : 2 * i + 2 < h.length ∧ prioAt h (2 * i + 2) < prioAt h i
    · rw [if_pos hr]
      exact Or.inr ⟨Or.inr rfl, hr.1, by omega⟩
    · rw [if_neg hr]
      exact Or.inl rfl

/-- `PriorityQueue._bubbleDown(index)`: swap with the smallest child while one
is strictly smaller. -/
def bubbleDown (h : Heap) (i : ℕ) : Heap :=
  if _hs : downTarget h i = i then h
  else bubbleDown (swap h i (downTarget h i)) (downTarget h i)
termination_by h.length - i
decreasing_by
  rcases downTarget_cases h i with hc | hc
  · exact absurd hc _hs
  · simp only [swap, List.length_set]
    omega

/-- `PriorityQueue.pop()`, returning the whole popped node (the source returns
`node.item`; the priority is kept so the scheduler's time update
`currentTime = entity.getNextActionTime()` can be expressed). -/
def popNode : Heap → Option HeapNode × Heap
  | [] => (none, [])
  | [n] => (some n, [])
  | a :: b :: rest =>
    (some a, bubbleDown ((b :: rest).getLast (List.cons_ne_nil b rest) ::
      (b :: rest).dropLast) 0)

/-- `PriorityQueue.pop()` exactly as the source returns it. -/
def heapPop (h : Heap) : Option String × Heap :=
  ((popNode h).1.map (fun n => n.item), (popNode h).2)

/-- Binary min-heap invariant: every non-root node is at least its parent. -/
def IsMinHeap (h : Heap) : Prop :=
  ∀ i, 0 < i → i < h.length → prioAt h (parentIdx i) ≤ prioAt h i

/-! ### Heap index and swap lemmas -/

theorem swap_length (h : Heap) (i j : ℕ) : (swap h i j).length = h.length := by
  simp [swap]

theorem nodeAt_mem (h : Heap) (i : ℕ) (hi : i < h.length) : nodeAt h i ∈ h := by
  unfold nodeAt
  rw [List.getD_eq_getElem?_getD, List.getElem?_eq_getElem hi, Option.getD_some]
  exact List.getElem_mem hi

theorem nodeAt_swap_fst (h : Heap) (i j : ℕ) (hi : i < h.length) (hj : j < h.length) :
    nodeAt (swap h i j) i = nodeAt h j := by
  unfold swap nodeAt
  by_cases hij : i = j
  · subst hij
    rw [List.getD_eq_getElem?_getD,
      List.getElem?_set_eq_of_lt _ (by rw [List.length_set]; exact hi), Option.getD_some]
  · rw [List.getD_eq_getElem?_getD, List.getElem?_set_ne (fun he => hij he.symm),
      List.getElem?_set_eq_of_lt _ hi, Option.getD_some]

theorem nodeAt_swap_snd (h : Heap) (i j : ℕ) (hj : j < h.length) :
    nodeAt (swap h i j) j = nodeAt h i := by
  unfold swap nodeAt
  rw [List.getD_eq_getElem?_getD,
    List.getElem?_set_eq_of_lt _ (by rw [List.length_set]; exact hj), Option.getD_some]

theorem nodeAt_swap_other (h : Heap) (i j k : ℕ) (hki : k ≠ i) (hkj : k ≠ j) :
    nodeAt (swap h i j) k = nodeAt h k := by
  unfold swap nodeAt
  rw [List.getD_eq_getElem?_getD, List.getElem?_set_ne (Ne.symm hkj),
    List.getElem?_set_ne (Ne.symm hki), ← List.getD_eq_getElem?_getD]

theorem prioAt_swap_fst (h : Heap) (i j : ℕ) (hi : i < h.length) (hj : j < h.length) :
    prioAt (swap h i j) i = prioAt h j :=
  congrArg HeapNode.priority (nodeAt_swap_fst h i j hi hj)

theorem prioAt_swap_snd (h : Heap) (i j : ℕ) (hj : j < h.length) :
    prioAt (swap h i j) j = prioAt h i :=
  congrArg HeapNode.priority (nodeAt_swap_snd h i j hj)

theorem prioAt_swap_other (h : Heap) (i j k : ℕ) (hki : k ≠ i) (hkj : k ≠ j) :
    prioAt (swap h i j) k = prioAt h k :=
  congrArg HeapNode.priority (nodeAt_swap_other h i j k hki hkj)

theorem mem_swap (h : Heap) (i j : ℕ) (x : HeapNode)
    (hi : i < h.length) (hj : j < h.length) (hx : x ∈ swap h i j) : x ∈ h := by
  unfold swap at hx
  rcases List.mem_or_eq_of_mem_set hx with hx1 | hx1
  · rcases List.mem_or_eq_of_mem_set hx1 with hx2 | hx2
    · exact hx2
    · exact hx2 ▸ nodeAt_mem h j hj
  · exact hx1 ▸ nodeAt_mem h i hi

theorem bubbleUp_length (h : Heap) (i : ℕ) : (bubbleUp h i).length = h.length := by
  rw [bubbleUp]
  split
  · rfl
  · split
    · rw [bubbleUp_length, swap_length]
    · rfl
termination_by i
decreasing_by
  simp only [parentIdx]
  omega

theorem mem_bubbleUp (h : Heap) (i : ℕ) (x : HeapNode) (hi : i < h.length)
    (hx : x ∈ bubbleUp h i) : x ∈ h := by
  rw [bubbleUp] at hx
  split at hx
  · exact hx
  · next hz =>
    split at hx
    · refine mem_swap h i (parentIdx i) x hi ?_ ?_
      · calc parentIdx i < i := by simp only [parentIdx]; omega
          _ < h.length := hi
      · refine mem_bubbleUp _ _ x ?_ hx
        rw [swap_length]
        simp only [parentIdx]
        omega
    · exact hx
termination_by i
decreasing_by
  simp only [parentIdx]
  omega

theorem bubbleDown_length (h : Heap) (i : ℕ) : (bubbleDown h i).length = h.length := by
  rw [bubbleDown]
  split
  · rfl
  · rw [bubbleDown_length, swap_length]
termination_by h.length - i
decreasing_by
  rcases downTarget_cases h i with hc | hc
  · simp_all
  · simp only [swap_length]
    omega

theorem mem_bubbleDown (h : Heap) (i : ℕ) (x : HeapNode)
    (hx : x ∈ bubbleDown h i) : x ∈ h := by
  rw [bubbleDown] at hx
  split at hx
  · exact hx
  · next hne =>
    rcases downTarget_cases h i with hc | hc
    · exact absurd hc hne
    · refine mem_swap h i (downTarget h i) x (by omega) hc.2.1
        (mem_bubbleDown _ _ x hx)
termination_by h.length - i
decreasing_by
  rcases downTarget_cases h i with hc | hc
  · simp_all
  · simp only [swap_length]
    omega

theorem popNode_none_iff (h : Heap) : (popNode h).1 = none ↔ h = [] := by
  match h with
  | [] => simp [popNode]
  | [n] => simp [popNode]
  | a :: b :: rest => simp [popNode]

theorem popNode_some_length (h : Heap) (n : HeapNode) (h' : Heap)
    (hp : popNode h = (some n, h')) : h'.length + 1 = h.length := by
  match h with
  | [] => simp [popNode] at hp
  | [m] =>
    simp only [popNode, Prod.mk.injEq, Option.some_inj] at hp
    rw [← hp.2]
    rfl
  | a :: b :: rest =>
    simp only [popNode, Prod.mk.injEq, Option.some_inj] at hp
    rw [← hp.2, bubbleDown_length]
    simp [List.length_dropLast]

/-! ### Scheduler

From `src/unnamed/part_001`, class `Scheduler`. `getNextEntity` pops nodes,
lazily discarding entities that are no longer active; `act` is the activity
environment (the `entity.active` flag read through the reference the queue
holds). The popped node's priority is the entity's `nextActionTime`, to which
the scheduler advances `currentTime`. -/

def getNextEntity (act : String → Bool) (h : Heap) : Option HeapNode × Heap :=
  match hp : popNode h with
  | (none, h') => (none, h')
  | (some n, h') => if act n.item then (some n, h') else getNextEntity act h'
termination_by h.length
decreasing_by
  have := popNode_some_length h n h' hp
  omega

/-- `Scheduler.schedule` for a whole sequence of calls, starting from an empty
queue: each call pushes `(entity, nextActionTime)`. -/
def scheduleAll (pushes : List (String × ℚ)) : Heap :=
  pushes.foldl (fun h p => heapPush h p.1 p.2) []

theorem getNextEntity_some_length_aux (act : String → Bool) :
    ∀ (N : ℕ) (h : Heap), h.length ≤ N → ∀ n h',
      getNextEntity act h = (some n, h') → h'.length < h.length := by
  intro N
  induction N with
  | zero =>
    intro h hle n h' hg
    have hnil : h = [] := List.length_eq_zero.mp (Nat.le_zero.mp hle)
    subst hnil
    rw [getNextEntity] at hg
    split at hg
    · simp at hg
    · next m h'' heq => simp [popNode] at heq
  | succ N ih =>
    intro h hle n h' hg
    rw [getNextEntity] at hg
    split at hg
    · simp at hg
    · next m h'' heq =>
      split at hg
      · have := popNode_some_length h m h'' heq
        cases hg
        omega
      · have h1 := popNode_some_length h m h'' heq
        have h2 := ih h'' (by omega) n h' hg
        omega

theorem getNextEntity_some_length (act : String → Bool) (h : Heap)
    (n : HeapNode) (h' : Heap) (hg : getNextEntity act h = (some n, h')) :
    h'.length < h.length :=
  getNextEntity_some_length_aux act h.length h (le_refl _) n h' hg

/-- Exhaust the queue through `getNextEntity`. -/
def drainHeap (act : String → Bool) (h : Heap) : List HeapNode :=
  match hd : getNextEntity act h with
  | (none, _) => []
  | (some n, h') => n :: drainHeap act h'
termination_by h.length
decreasing_by
  exact getNextEntity_some_length act h n h' hd

/-! ### Heap invariant preservation: push / bubbleUp -/

/-- Almost-heap invariant for `bubbleUp`: every edge except the one into `i`
holds, and the element at `i`'s parent already dominates `i`'s children. -/
def UpInv (h : Heap) (i : ℕ) : Prop :=
  (∀ j, 0 < j → j < h.length → j ≠ i → prioAt h (parentIdx j) ≤ prioAt h j) ∧
  (0 < i → ∀ c, c < h.length → parentIdx c = i → prioAt h (parentIdx i) ≤ prioAt h c)

theorem bubbleUp_isMinHeap (h : Heap) (i : ℕ) (hi : i < h.length) (hinv : UpInv h i) :
    IsMinHeap (bubbleUp h i) := by
  rw [bubbleUp]
  split
  · next hz =>
    subst hz
    intro j hj hjlen
    exact hinv.1 j hj hjlen (by omega)
  · next hz =>
    split
    · next hlt =>
      have hplt : parentIdx i < i := by simp only [parentIdx]; omega
      have hpl : parentIdx i < h.length := lt_trans hplt hi
      refine bubbleUp_isMinHeap (swap h i (parentIdx i)) (parentIdx i)
        (by rw [swap_length]; exact hpl) ?_
      constructor
      · intro j hj hjlen hjp
        rw [swap_length] at hjlen
        by_cases hji : j = i
        · subst hji
          rw [prioAt_swap_snd h j (parentIdx j) hpl,
            prioAt_swap_fst h j (parentIdx j) hi hpl]
          exact le_of_lt hlt
        · by_cases hpji : parentIdx j = i
          · have hj_gt : i < j := by simp only [parentIdx] at hpji ⊢; omega
            rw [hpji, prioAt_swap_fst h i (parentIdx i) hi hpl,
              prioAt_swap_other h i (parentIdx i) j (by omega) (by omega)]
            exact hinv.2 (by omega) j hjlen hpji
          · by_cases hpjp : parentIdx j = parentIdx i
            · rw [hpjp, prioAt_swap_snd h i (parentIdx i) hpl,
                prioAt_swap_other h i (parentIdx i) j hji hjp]
              have he := hinv.1 j hj hjlen hji
              rw [hpjp] at he
              exact le_trans (le_of_lt hlt) he
            · rw [prioAt_swap_other h i (parentIdx i) j hji hjp,
                prioAt_swap_other h i (parentIdx i) (parentIdx j) hpji hpjp]
              exact hinv.1 j hj hjlen hji
      · intro hp0 c hclen hpc
        rw [swap_length] at hclen
        have hgplt : parentIdx (parentIdx i) < parentIdx i := by
          simp only [parentIdx] at hp0 ⊢
          omega
        by_cases hci : c = i
        · subst hci
          rw [prioAt_swap_fst h c (parentIdx c) hi hpl,
            prioAt_swap_other h c (parentIdx c) (parentIdx (parentIdx c))
              (by omega) (by omega)]
          exact hinv.1 (parentIdx c) hp0 hpl (by omega)
        · have hcp : c ≠ parentIdx i := by
            intro hceq
            rw [hceq] at hpc
            simp only [parentIdx] at hpc hp0
            omega
          have hc0 : 0 < c := by
            simp only [parentIdx] at hpc hp0
            omega
          rw [prioAt_swap_other h i (parentIdx i) c hci hcp,
            prioAt_swap_other h i (parentIdx i) (parentIdx (parentIdx i))
              (by omega) (by omega)]
          have e1 : prioAt h (parentIdx (parentIdx i)) ≤ prioAt h (parentIdx i) :=
            hinv.1 (parentIdx i) hp0 hpl (by omega)
          have e2 := hinv.1 c hc0 hclen hci
          rw [hpc] at e2
          exact le_trans e1 e2
    · next hge =>
      intro j hj hjlen
      by_cases hji : j = i
      · subst hji
        exact not_lt.mp hge
      · exact hinv.1 j hj hjlen hji
termination_by i
decreasing_by
  simp only [parentIdx]
  omega

theorem prioAt_append_lt (h : Heap) (x : HeapNode) (k : ℕ) (hk : k < h.length) :
    prioAt (h ++ [x]) k = prioAt h k := by
  unfold prioAt nodeAt
  rw [List.getD_eq_getElem?_getD, List.getD_eq_getElem?_getD,
    List.getElem?_append_left hk]

theorem heapPush_isMinHeap (h : Heap) (it : String) (pr : ℚ) (hh : IsMinHeap h) :
    IsMinHeap (heapPush h it pr) := by
  unfold heapPush
  apply bubbleUp_isMinHeap
  · simp
  · constructor
    · intro j hj hjlen hjne
      have hjlen' : j < h.length := by
        simp only [List.length_append, List.length_singleton] at hjlen
        omega
      have hplt : parentIdx j < j := by simp only [parentIdx]; omega
      rw [prioAt_append_lt _ _ _ hjlen', prioAt_append_lt _ _ _ (by omega)]
      exact hh j hj hjlen'
    · intro hi0 c hclen hpc
      simp only [List.length_append, List.length_singleton] at hclen
      simp only [parentIdx] at hpc
      omega

theorem isMinHeap_nil : IsMinHeap [] := by
  intro i h1 h2
  simp at h2

theorem scheduleAll_isMinHeap (pushes : List (String × ℚ)) :
    IsMinHeap (scheduleAll pushes) := by
  unfold scheduleAll
  suffices hgen : ∀ h0 : Heap, IsMinHeap h0 →
      IsMinHeap (pushes.foldl (fun h p => heapPush h p.1 p.2) h0) from
    hgen [] isMinHeap_nil
  induction pushes with
  | nil => intro h0 hh0; exact hh0
  | cons p rest ih =>
    intro h0 hh0
    exact ih (heapPush h0 p.1 p.2) (heapPush_isMinHeap h0 p.1 p.2 hh0)

/-- In a min-heap, the root is a lower bound for every index. -/
theorem isMinHeap_root_le (h : Heap) (hh : IsMinHeap h) :
    ∀ i, i < h.length → prioAt h 0 ≤ prioAt h i := by
  intro i
  induction i using Nat.strong_induction_on with
  | _ i ih =>
    intro hi
    rcases Nat.eq_zero_or_pos i with hz | hp
    · subst hz; exact le_refl _
    · have hplt : parentIdx i < i := by simp only [parentIdx]; omega
      exact le_trans (ih (parentIdx i) hplt (lt_trans hplt hi)) (hh i hp hi)

/-! ### Heap invariant preservation: pop / bubbleDown -/

/-- What the chosen `smallest` index guarantees: when it stays put both
children (if any) are no smaller; when it moves it points at a strictly
smaller child that is minimal among the children. -/
theorem downTarget_spec (h : Heap) (i : ℕ) :
    (downTarget h i = i →
      (∀ j, (j = 2 * i + 1 ∨ j = 2 * i + 2) → j < h.length →
        prioAt h i ≤ prioAt h j)) ∧
    (downTarget h i ≠ i →
      prioAt h (downTarget h i) < prioAt h i ∧
      (∀ j, (j = 2 * i + 1 ∨ j = 2 * i + 2) → j < h.length →
        prioAt h (downTarget h i) ≤ prioAt h j)) := by
  simp only [downTarget]
  by_cases hl : 2 * i + 1 < h.length ∧ prioAt h (2 * i + 1) < prioAt h i
  · rw [if_pos hl]
    by_cases hr : 2 * i + 2 < h.length ∧ prioAt h (2 * i + 2) < prioAt h (2 * i + 1)
    · rw [if_pos hr]
      refine ⟨fun heq => absurd heq (by omega), fun _ => ⟨lt_trans hr.2 hl.2, ?_⟩⟩
      intro j hj hjl
      rcases hj with rfl | rfl
      · exact le_of_lt hr.2
      · exact le_refl _
    · rw [if_neg hr]
      refine ⟨fun heq => absurd heq (by omega), fun _ => ⟨hl.2, ?_⟩⟩
      intro j hj hjl
      rcases hj with rfl | rfl
      · exact le_refl _
      · exact not_lt.mp (fun hcon => hr ⟨hjl, hcon⟩)
  · rw [if_neg hl]
    by_cases hr : 2 * i + 2 < h.length ∧ prioAt h (2 * i + 2) < prioAt h i
    · rw [if_pos hr]
      refine ⟨fun heq => absurd heq (by omega), fun _ => ⟨hr.2, ?_⟩⟩
      intro j hj hjl
      rcases hj with rfl | rfl
      · exact le_trans (le_of_lt hr.2) (not_lt.mp (fun hcon => hl ⟨hjl, hcon⟩))
      · exact le_refl _
    · rw [if_neg hr]
      refine ⟨fun _ j hj hjl => ?_, fun hne => absurd rfl hne⟩
      rcases hj with rfl | rfl
      · exact not_lt.mp (fun hcon => hl ⟨hjl, hcon⟩)
      · exact not_lt.mp (fun hcon => hr ⟨hjl, hcon⟩)

/-- Almost-heap invariant for `bubbleDown`: every edge except those out of `i`
holds, and `i`'s parent (when it exists) already dominates `i`'s children. -/
def DownInv (h : Heap) (i : ℕ) : Prop :=
  (∀ j, 0 < j → j < h.length → parentIdx j ≠ i → prioAt h (parentIdx j) ≤ prioAt h j) ∧
  (0 < i → ∀ c, c < h.length → parentIdx c = i → prioAt h (parentIdx i) ≤ prioAt h c)

theorem downInv_step (h : Heap) (i : ℕ) (hne : downTarget h i ≠ i)
    (hinv : DownInv h i) :
    DownInv (swap h i (downTarget h i)) (downTarget h i) := by
  obtain hc := (downTarget_cases h i).resolve_left hne
  have hdlen : downTarget h i < h.length := hc.2.1
  have hid : i < downTarget h i := hc.2.2
  have hilen : i < h.length := lt_trans hid hdlen
  have hspec := (downTarget_spec h i).2 hne
  have hpard : parentIdx (downTarget h i) = i := by
    rcases hc.1 with he | he <;> (rw [he]; simp only [parentIdx]; omega)
  constructor
  · intro j hj hjlen hpjd
    rw [swap_length] at hjlen
    by_cases hjd : j = downTarget h i
    · subst hjd
      rw [hpard, prioAt_swap_fst h i _ hilen hdlen, prioAt_swap_snd h i _ hdlen]
      exact le_of_lt hspec.1
    · by_cases hji : j = i
      · subst hji
        rw [prioAt_swap_fst h j _ hilen hdlen,
          prioAt_swap_other h j _ (parentIdx j)
            (by simp only [parentIdx]; omega) (by simp only [parentIdx]; omega)]
        exact hinv.2 hj _ hdlen hpard
      · by_cases hpji : parentIdx j = i
        · rw [hpji, prioAt_swap_fst h i _ hilen hdlen,
            prioAt_swap_other h i _ j hji hjd]
          refine hspec.2 j ?_ hjlen
          simp only [parentIdx] at hpji
          omega
        · rw [prioAt_swap_other h i _ j hji hjd,
            prioAt_swap_other h i _ (parentIdx j) hpji hpjd]
          exact hinv.1 j hj hjlen hpji
  · intro _ c hclen hpcd
    rw [swap_length] at hclen
    rw [hpard]
    have hc0 : 0 < c := by simp only [parentIdx] at hpcd; omega
    have hcd : downTarget h i < c := by simp only [parentIdx] at hpcd; omega
    rw [prioAt_swap_fst h i _ hilen hdlen,
      prioAt_swap_other h i _ c (by omega) (by omega)]
    have he := hinv.1 c hc0 hclen (by rw [hpcd]; omega)
    rw [hpcd] at he
    exact he

theorem bubbleDown_isMinHeap (h : Heap) (i : ℕ) (hinv : DownInv h i) :
    IsMinHeap (bubbleDown h i) := by
  rw [bubbleDown]
  split
  · next heq =>
    intro j hj hjlen
    by_cases hpji : parentIdx j = i
    · rw [hpji]
      refine (downTarget_spec h i).1 heq j ?_ hjlen
      simp only [parentIdx] at hpji
      omega
    · exact hinv.1 j hj hjlen hpji
  · next hne =>
    exact bubbleDown_isMinHeap _ _ (downInv_step h i hne hinv)
termination_by h.length - i
decreasing_by
  rcases downTarget_cases h i with hc | hc
  · simp_all
  · simp only [swap_length]
    omega

theorem prioAt_eq_getElem (h : Heap) (k : ℕ) (hk : k < h.length) :
    prioAt h k = (h[k]).priority := by
  unfold prioAt nodeAt
  rw [List.getD_eq_getElem?_getD, List.getElem?_eq_getElem hk, Option.getD_some]

/-- The body the source builds before bubbling down on pop: last element moved
to the root, stale tail dropped. Its entries at positions `k ≥ 1` are the old
entries. -/
theorem prioAt_popBody (b : HeapNode) (rest : List HeapNode) (last : HeapNode)
    (k : ℕ) (hk1 : 0 < k) (hk2 : k < (last :: (b :: rest).dropLast).length) :
    prioAt (last :: (b :: rest).dropLast) k = prioAt (b :: rest) (k - 1) := by
  obtain ⟨m, rfl⟩ : ∃ m, k = m + 1 := ⟨k - 1, by omega⟩
  simp only [List.length_cons, List.length_dropLast] at hk2
  have hm : m < (b :: rest).dropLast.length := by
    simp only [List.length_dropLast, List.length_cons]
    omega
  have hm' : m < (b :: rest).length := by
    simp only [List.length_cons]
    simp only [List.length_dropLast, List.length_cons] at hm
    omega
  unfold prioAt nodeAt
  rw [List.getD_cons_succ, List.getD_eq_getElem?_getD,
    List.getElem?_eq_getElem hm, List.getElem_dropLast,
    ← List.getElem?_eq_getElem, ← List.getD_eq_getElem?_getD]
  simp

/-- `pop()` on a min-heap returns the minimum; the remainder is again a
min-heap drawn from the old elements. -/
theorem popNode_spec (h : Heap) (hh : IsMinHeap h) (n : HeapNode) (h' : Heap)
    (hp : popNode h = (some n, h')) :
    n ∈ h ∧ (∀ x ∈ h, n.priority ≤ x.priority) ∧ IsMinHeap h' ∧
      (∀ x ∈ h', x ∈ h) := by
  match h with
  | [] => simp [popNode] at hp
  | [m] =>
    simp only [popNode, Prod.mk.injEq, Option.some_inj] at hp
    obtain ⟨h1, h2⟩ := hp
    refine ⟨by rw [← h1]; exact List.mem_singleton.mpr rfl, ?_, ?_, ?_⟩
    · intro x hx
      rw [List.mem_singleton] at hx
      rw [← h1, hx]
    · rw [← h2]
      exact isMinHeap_nil
    · rw [← h2]
      simp
  | a :: b :: rest =>
    simp only [popNode, Prod.mk.injEq, Option.some_inj] at hp
    obtain ⟨h1, h2⟩ := hp
    have hroot : ∀ x ∈ (a :: b :: rest), a.priority ≤ x.priority := by
      intro x hx
      obtain ⟨k, hk, hxe⟩ := List.mem_iff_getElem.mp hx
      have hle := isMinHeap_root_le _ hh k hk
      rw [prioAt_eq_getElem _ 0 (by simp), prioAt_eq_getElem _ k hk] at hle
      rw [← hxe]
      simpa using hle
    have hlast := List.getLast_mem (List.cons_ne_nil b rest)
    have hre : ∀ k, 0 < k → k < (a :: b :: rest).length →
        prioAt (a :: b :: rest) k = prioAt (b :: rest) (k - 1) := by
      intro k hk0 hklen
      obtain ⟨m, rfl⟩ : ∃ m, k = m + 1 := ⟨k - 1, by omega⟩
      unfold prioAt nodeAt
      rw [List.getD_cons_succ]
      simp
    refine ⟨by rw [← h1]; exact List.mem_cons_self a (b :: rest),
      by rw [← h1]; exact hroot, ?_, ?_⟩
    · rw [← h2]
      apply bubbleDown_isMinHeap
      constructor
      · intro j hj hjlen hpj0
        have hpj : 0 < parentIdx j := by
          simp only [parentIdx] at hpj0 ⊢
          omega
        have hpjlt : parentIdx j < j := by simp only [parentIdx]; omega
        have hjlen1 : j < rest.length + 1 := by
          simpa [List.length_dropLast] using hjlen
        rw [prioAt_popBody b rest _ j hj hjlen,
          prioAt_popBody b rest _ (parentIdx j) hpj (by
            simp only [List.length_cons, List.length_dropLast]
            omega)]
        have hstep := hh j hj (by simp only [List.length_cons]; omega)
        rw [hre j hj (by simp only [List.length_cons]; omega),
          hre (parentIdx j) hpj (by
            simp only [List.length_cons]
            omega)] at hstep
        exact hstep
      · intro hcon
        exact absurd hcon (by omega)
    · intro x hx
      rw [← h2] at hx
      have hx0 := mem_bubbleDown _ _ x hx
      rcases List.mem_cons.mp hx0 with rfl | hx1
      · exact List.mem_cons_of_mem a hlast
      · exact List.mem_cons_of_mem a (List.dropLast_subset _ hx1)

/-- On a min-heap, `getNextEntity` returns an active member whose priority is
a lower bound for everything left in the queue, and leaves a min-heap. -/
theorem getNextEntity_spec_aux (act : String → Bool) :
    ∀ (N : ℕ) (h : Heap), h.length ≤ N → IsMinHeap h → ∀ n h',
      getNextEntity act h = (some n, h') →
      act n.item = true ∧ n ∈ h ∧ IsMinHeap h' ∧
        (∀ m ∈ h', n.priority ≤ m.priority ∧ m ∈ h) := by
  intro N
  induction N with
  | zero =>
    intro h hle hh n h' hg
    have hnil : h = [] := List.length_eq_zero.mp (Nat.le_zero.mp hle)
    subst hnil
    rw [getNextEntity] at hg
    split at hg
    · simp at hg
    · next m h'' heq => simp [popNode] at heq
  | succ N ih =>
    intro h hle hh n h' hg
    rw [getNextEntity] at hg
    split at hg
    · simp at hg
    · next m h'' heq =>
      have hps := popNode_spec h hh m h'' heq
      have hlen := popNode_some_length h m h'' heq
      split at hg
      · next hact =>
        cases hg
        exact ⟨hact, hps.1, hps.2.2.1,
          fun x hx => ⟨hps.2.1 x (hps.2.2.2 x hx), hps.2.2.2 x hx⟩⟩
      · have hrec := ih h'' (by omega) hps.2.2.1 n h' hg
        exact ⟨hrec.1, hps.2.2.2 n hrec.2.1, hrec.2.2.1,
          fun x hx => ⟨(hrec.2.2.2 x hx).1, hps.2.2.2 x (hrec.2.2.2 x hx).2⟩⟩

theorem getNextEntity_spec (act : String → Bool) (h : Heap) (hh : IsMinHeap h)
    (n : HeapNode) (h' : Heap) (hg : getNextEntity act h = (some n, h')) :
    act n.item = true ∧ n ∈ h ∧ IsMinHeap h' ∧
      (∀ m ∈ h', n.priority ≤ m.priority ∧ m ∈ h) :=
  getNextEntity_spec_aux act h.length h (le_refl _) hh n h' hg

/-- Every node `getNextEntity` returns passed the activity check (no heap
invariant needed: inactive pops are discarded unconditionally). -/
theorem getNextEntity_active_aux (act : String → Bool) :
    ∀ (N : ℕ) (h : Heap), h.length ≤ N → ∀ n h',
      getNextEntity act h = (some n, h') → act n.item = true := by
  intro N
  induction N with
  | zero =>
    intro h hle n h' hg
    have hnil : h = [] := List.length_eq_zero.mp (Nat.le_zero.mp hle)
    subst hnil
    rw [getNextEntity] at hg
    split at hg
    · simp at hg
    · next m h'' heq => simp [popNode] at heq
  | succ N ih =>
    intro h hle n h' hg
    rw [getNextEntity] at hg
    split at hg
    · simp at hg
    · next m h'' heq =>
      have hlen := popNode_some_length h m h'' heq
      split at hg
      · next hact =>
        cases hg
        exact hact
      · exact ih h'' (by omega) n h' hg

theorem getNextEntity_active (act : String → Bool) (h : Heap)
    (n : HeapNode) (h' : Heap) (hg : getNextEntity act h = (some n, h')) :
    act n.item = true :=
  getNextEntity_active_aux act h.length h (le_refl _) n h' hg

/-- The head of a drain run is a member of the drained heap. -/
theorem drainHeap_head_mem (act : String → Bool) (h : Heap) (hh : IsMinHeap h)
    (m : HeapNode) (rest : List HeapNode) (hd : drainHeap act h = m :: rest) :
    m ∈ h := by
  rw [drainHeap] at hd
  split at hd
  · cases hd
  · rename_i n h' heq
    injection hd with hd1 hd2
    rw [← hd1]
    exact (getNextEntity_spec act h hh n h' heq).2.1

/-- Draining a min-heap yields non-decreasing priorities, and only nodes whose
entity is (still) active. -/
theorem drainHeap_spec_aux (act : String → Bool) :
    ∀ (N : ℕ) (h : Heap), h.length ≤ N → IsMinHeap h →
      List.Chain' (fun a b => a.priority ≤ b.priority) (drainHeap act h) ∧
      (∀ n ∈ drainHeap act h, act n.item = true) := by
  intro N
  induction N with
  | zero =>
    intro h hle hh
    have hnil : h = [] := List.length_eq_zero.mp (Nat.le_zero.mp hle)
    subst hnil
    rw [drainHeap]
    split
    · exact ⟨List.chain'_nil, by simp⟩
    · next n h' heq =>
      have := getNextEntity_some_length act [] n h' heq
      simp at this
  | succ N ih =>
    intro h hle hh
    rw [drainHeap]
    split
    · exact ⟨List.chain'_nil, by simp⟩
    · next n h' heq =>
      have hspec := getNextEntity_spec act h hh n h' heq
      have hlt := getNextEntity_some_length act h n h' heq
      have hrec := ih h' (by omega) hspec.2.2.1
      constructor
      · rw [List.chain'_cons']
        refine ⟨?_, hrec.1⟩
        intro y hy
        cases hdh : drainHeap act h' with
        | nil =>
          rw [hdh] at hy
          simp at hy
        | cons m rest =>
          rw [hdh] at hy
          simp only [List.head?_cons, Option.mem_def, Option.some_inj] at hy
          subst hy
          exact (hspec.2.2.2 m (drainHeap_head_mem act h' hspec.2.2.1 m rest hdh)).1
      · intro x hx
        rcases List.mem_cons.mp hx with rfl | hx1
        · exact hspec.1
        · exact hrec.2 x hx1

theorem drainHeap_spec (act : String → Bool) (h : Heap) (hh : IsMinHeap h) :
    List.Chain' (fun a b => a.priority ≤ b.priority) (drainHeap act h) ∧
    (∀ n ∈ drainHeap act h, act n.item = true) :=
  drainHeap_spec_aux act h.length h (le_refl _) hh

/-- Claim C1: for every sequence of `schedule(actor, t)` calls with arbitrary
timestamps, the successive `getNextEntity` pops return actors in
non-decreasing timestamp order, every returned actor is active at pop time,
and an actor deactivated after being scheduled but before being popped
(`act id = false`) is never returned — it is lazily skipped. -/
theorem scheduler_ordering (pushes : List (String × ℚ)) (act : String → Bool) :
    List.Chain' (fun a b => a.priority ≤ b.priority)
      (drainHeap act (scheduleAll pushes)) ∧
    (∀ n ∈ drainHeap act (scheduleAll pushes), act n.item = true) ∧
    (∀ id, act id = false →
      ∀ n ∈ drainHeap act (scheduleAll pushes), n.item ≠ id) := by
  have hs := drainHeap_spec act (scheduleAll pushes) (scheduleAll_isMinHeap pushes)
  refine ⟨hs.1, hs.2, ?_⟩
  intro id hid n hn heq
  have hact := hs.2 n hn
  rw [heq] at hact
  rw [hact] at hid
  cases hid

/-! ### World

From `src/unnamed/part_003`, class `World`. JavaScript objects live past their
removal from the registry through outstanding references (the scheduler's
queue, a caller's local variable), so the embedding splits the object heap
(`store`) from the `Map` of registered ids (`registry`): `entities.get(id)`
succeeds only for registered ids, while a reference reads the store directly.
`player` holds the id of the entity `world.player` points at. -/

def storeGet (s : List (String × Entity)) (id : String) : Option Entity :=
  List.lookup id s

/-- `Map.set`: replace in place or append. -/
def storeSet : List (String × Entity) → String → Entity → List (String × Entity)
  | [], id, e => [(id, e)]
  | (k, v) :: rest, id, e =>
    if k = id then (k, e) :: rest else (k, v) :: storeSet rest id e

structure World where
  store : List (String × Entity) := []
  registry : List String := []
  player : Option String := none
  deriving Repr, DecidableEq

/-- `World.getEntity(entityId)` / `this.entities.get(entityId)`. -/
def World.getEntity (w : World) (entityId : String) : Option Entity :=
  if entityId ∈ w.registry then storeGet w.store entityId else none

/-- `World.addEntity(entity)`. -/
def World.addEntity (w : World) (e : Entity) : World :=
  { store := storeSet w.store e.id e
    registry := if e.id ∈ w.registry then w.registry else w.registry ++ [e.id]
    player := if e.type = "player" then some e.id else w.player }

/-- `World.removeEntity(entityId)`: deactivate the object (visible through
every outstanding reference), delete it from the registry, clear the player
pointer when it was the player; returns whether an entity was removed. -/
def World.removeEntity (w : World) (entityId : String) : World × Bool :=
  match w.getEntity entityId with
  | some e =>
    ({ store := storeSet w.store entityId { e with active := false }
       registry := w.registry.erase entityId
       player := if w.player = some entityId then none else w.player }, true)
  | none => (w, false)

/-- The activity environment the scheduler reads through its references. -/
def World.isActive (w : World) (id : String) : Bool :=
  match storeGet w.store id with
  | some e => e.active
  | none => false

/-! ### Looting

From `src/unnamed/part_006`, `CombatSystem.lootCorpse(corpse, player, world)`.
`corpseId`/`playerId` name the objects the caller holds references to; `roll`
is the `Math.random()` draw in `[0,1)` of the gold roll. -/

def lootCorpse (w : World) (corpseId playerId : String) (roll : ℚ) :
    World × Bool :=
  match storeGet w.store corpseId, storeGet w.store playerId with
  | some corpse, some player =>
    match corpse.corpse with
    | none => (w, false)
    | some cc =>
      if cc.looted then (w, false)
      else
        match corpse.loot with
        | none => (w, false)
        | some loot =>
          let credited : World × Bool :=
            match loot.gold with
            | some g =>
              let goldAmount : ℚ := ((⌊roll * (g.max - g.min + 1)⌋ : ℤ) : ℚ) + g.min
              let player' : Entity :=
                { player with gold := some ⟨((player.gold).getD ⟨0⟩).amount + goldAmount⟩ }
              if 0 < goldAmount then
                ({ w with store := storeSet w.store playerId player' }, true)
              else (w, false)
            | none => (w, false)
          let corpse' : Entity := { corpse with corpse := some { cc with looted := true } }
          let w2 : World := { credited.1 with store := storeSet credited.1.store corpseId corpse' }
          if credited.2 then ((w2.removeEntity corpseId).1, true) else (w2, false)
  | _, _ => (w, false)

/-! ### Death handling

From `src/unnamed/part_006` (`handleDeath`, `createCorpse`, `giveExperience`)
and `CharacterProgress` (`addExperience`, `checkLevelUp`, `performLevelUp`,
`increaseStats`, `getExperienceForLevel`). `rolls` feeds the random stat picks
of `increaseStats` on a level-up. -/

def experienceTable : List ℚ :=
  [0, 100, 250, 450, 700, 1000, 1350, 1750, 2200, 2700,
   3250, 3850, 4500, 5200, 5950, 6750, 7600, 8500, 9450, 10450]

/-- `CharacterProgress.getExperienceForLevel(level)`. -/
def getExperienceForLevel (level : ℕ) : ℚ :=
  if level = 0 then 0
  else if experienceTable.length < level then
    10450 + ((level : ℚ) - 20) * 500
  else experienceTable.getD (level - 1) 0

/-- One `statsComponent[stat] = (statsComponent[stat] || 10) + 1` bump; the
stat array is `['strength', 'dexterity', 'intelligence', 'constitution']`. -/
def bumpStat (s : Stats) (idx : ℕ) : Stats :=
  if idx = 0 then { s with strength := (if s.strength = 0 then 10 else s.strength) + 1 }
  else if idx = 1 then { s with dexterity := (if s.dexterity = 0 then 10 else s.dexterity) + 1 }
  else if idx = 2 then { s with intelligence := (if s.intelligence = 0 then 10 else s.intelligence) + 1 }
  else { s with constitution := (if s.constitution = 0 then 10 else s.constitution) + 1 }

/-- `CharacterProgress.increaseStats(entity)`: 1–3 random points on random
stats; the rolls are the successive `Math.random()` draws. -/
def increaseStats (e : Entity) (rolls : List ℚ) : Entity :=
  match e.stats with
  | none => e
  | some s =>
    match rolls with
    | [] => e
    | r :: picks =>
      let totalPoints := (⌊r * 3⌋).toNat + 1
      let s' := (List.range totalPoints).foldl
        (fun acc i => bumpStat acc (⌊(picks.getD i 0) * 4⌋).toNat) s
      { e with stats := some s' }

/-- The "Restore health" block of `performLevelUp`:
`healthComponent.max += 4; current = max` (full heal). -/
def healthRefill (e : Entity) : Entity :=
  match e.health with
  | some h => { e with health := some ⟨h.max + 4, h.max + 4⟩ }
  | none => e

/-- `CharacterProgress.performLevelUp(entity)` (the mana branch is vacuous
here: no modelled entity carries a mana component). -/
def performLevelUp (e : Entity) (rolls : List ℚ) : Entity :=
  match e.level, e.stats with
  | some lvl, some _ =>
    let lvl1 : LevelComp := { lvl with value := lvl.value + 1 }
    let lvl2 : LevelComp :=
      { lvl1 with experienceToNext := getExperienceForLevel (lvl1.value + 1) - lvl1.experience }
    healthRefill (increaseStats { e with level := some lvl2 } rolls)
  | _, _ => e

/-- `CharacterProgress.checkLevelUp(entity)`. -/
def checkLevelUp (e : Entity) (rolls : List ℚ) : Entity × Bool :=
  match e.level with
  | none => (e, false)
  | some lvl =>
    if getExperienceForLevel (lvl.value + 1) ≤ lvl.experience then
      (performLevelUp e rolls, true)
    else (e, false)

/-- `CharacterProgress.addExperience(entity, experience)`: accumulate, then
level up at most once. (The source's missing-level-component branch would
throw on `levelComponent.value`; it is modelled as a plain no-op.) -/
def addExperience (e : Entity) (experience : ℚ) (rolls : List ℚ) : Entity × Bool :=
  match e.level with
  | none => (e, false)
  | some lvl =>
    let e1 := { e with level := some { lvl with experience := lvl.experience + experience } }
    checkLevelUp e1 rolls

/-- `CombatSystem.giveExperience(player, monster)`:
`experience = monster.level.value * 10` fed to `addExperience`. -/
def giveExperience (w : World) (playerId : String) (monster : Entity)
    (rolls : List ℚ) : World :=
  match monster.level with
  | none => w
  | some lvl =>
    match storeGet w.store playerId with
    | none => w
    | some player =>
      let res := addExperience player ((lvl.value : ℚ) * 10) rolls
      { w with store := storeSet w.store playerId res.1 }

/-- `CombatSystem.createCorpse(monster, world)` (the appearance component is
rendering-only and not modelled). -/
def createCorpse (monster : Entity) (w : World) : World :=
  let corpse0 : Entity :=
    { id := "corpse_" ++ monster.id, type := "corpse", x := monster.x, y := monster.y }
  let corpse1 :=
    match monster.loot with
    | some loot => { corpse0 with loot := some loot }
    | none => corpse0
  let corpse2 :=
    { corpse1 with corpse := some ⟨(monster.monsterType).getD "monster", false⟩ }
  w.addEntity corpse2

/-- `CombatSystem.handleDeath(entity, world)`: monster kills award the player
experience, spawn a corpse, then remove the dead entity. -/
def handleDeath (entity : Entity) (w : World) (rolls : List ℚ) : World :=
  let w1 :=
    match w.player with
    | some pid => if entity.type = "monster" then giveExperience w pid entity rolls else w
    | none => w
  let w2 := if entity.type = "monster" then createCorpse entity w1 else w1
  (w2.removeEntity entity.id).1

/-! ### Store lemmas -/

theorem storeGet_storeSet_self (s : List (String × Entity)) (id : String) (e : Entity) :
    storeGet (storeSet s id e) id = some e := by
  induction s with
  | nil => simp [storeSet, storeGet, List.lookup]
  | cons hd tl ih =>
    obtain ⟨k, v⟩ := hd
    by_cases hk : k = id
    · subst hk
      simp [storeSet, storeGet, List.lookup]
    · have hne : (id == k) = false := by
        simp only [beq_eq_false_iff_ne, ne_eq]
        exact fun he => hk he.symm
      simp only [storeSet, if_neg hk]
      simp only [storeGet, List.lookup, hne] at ih ⊢
      exact ih

theorem storeGet_storeSet_ne (s : List (String × Entity)) (id id' : String)
    (e : Entity) (h : id' ≠ id) :
    storeGet (storeSet s id e) id' = storeGet s id' := by
  induction s with
  | nil =>
    have hne : (id' == id) = false := by
      simp only [beq_eq_false_iff_ne, ne_eq]
      exact h
    simp [storeSet, storeGet, List.lookup, hne]
  | cons hd tl ih =>
    obtain ⟨k, v⟩ := hd
    by_cases hk : k = id
    · subst hk
      have hne : (id' == k) = false := by
        simp only [beq_eq_false_iff_ne, ne_eq]
        exact h
      simp only [storeSet, if_pos rfl]
      simp only [storeGet, List.lookup, hne]
    · simp only [storeSet, if_neg hk]
      by_cases hk' : id' = k
      · subst hk'
        simp [storeGet, List.lookup]
      · have hne : (id' == k) = false := by
          simp only [beq_eq_false_iff_ne, ne_eq]
          exact hk'
        simp only [storeGet, List.lookup, hne] at ih ⊢
        exact ih

/-- Claim C10: removing an entity from the world deactivates the shared object
before deleting it from the registry, so even though its stale heap entry is
never purged, the scheduler — which reads liveness through the surviving
reference — never dispatches it: after `removeEntity` the object reads
inactive, the id is deregistered, and no `getNextEntity` run over any queue
state returns that id. -/
theorem removeEntity_never_dispatched (w : World) (id : String) (e : Entity)
    (hreg : w.getEntity id = some e) (hnodup : w.registry.Nodup) :
    ((w.removeEntity id).1).isActive id = false ∧
    id ∉ ((w.removeEntity id).1).registry ∧
    ((w.removeEntity id).1).getEntity id = none ∧
    (w.removeEntity id).2 = true ∧
    (∀ (h : Heap) (n : HeapNode) (h' : Heap),
      getNextEntity ((w.removeEntity id).1).isActive h = (some n, h') →
        n.item ≠ id) := by
  have hact : ((w.removeEntity id).1).isActive id = false := by
    unfold World.removeEntity
    rw [hreg]
    unfold World.isActive
    simp only [storeGet_storeSet_self]
  have hmem : id ∉ ((w.removeEntity id).1).registry := by
    unfold World.removeEntity
    rw [hreg]
    exact hnodup.not_mem_erase
  refine ⟨hact, hmem, ?_, ?_, ?_⟩
  · unfold World.getEntity
    rw [if_neg hmem]
  · unfold World.removeEntity
    rw [hreg]
  · intro h n h' hg heq
    have hactive := getNextEntity_active _ h n h' hg
    rw [heq, hact] at hactive
    cases hactive

/-- Witness for C10 at a concrete one-entity world and a stale one-node queue. -/
theorem removeEntity_never_dispatched_witness :
    (((World.removeEntity
        { store := [("m", { id := "m", type := "monster" })],
          registry := ["m"], player := none } "m").1).isActive "m" = false ∧
      "m" ∉ ((World.removeEntity
        { store := [("m", { id := "m", type := "monster" })],
          registry := ["m"], player := none } "m").1).registry ∧
      ((World.removeEntity
        { store := [("m", { id := "m", type := "monster" })],
          registry := ["m"], player := none } "m").1).getEntity "m" = none ∧
      (World.removeEntity
        { store := [("m", { id := "m", type := "monster" })],
          registry := ["m"], player := none } "m").2 = true ∧
      (∀ (h : Heap) (n : HeapNode) (h' : Heap),
        getNextEntity (((World.removeEntity
          { store := [("m", { id := "m", type := "monster" })],
            registry := ["m"], player := none } "m").1).isActive) h = (some n, h') →
          n.item ≠ "m")) :=
  removeEntity_never_dispatched
    { store := [("m", { id := "m", type := "monster" })],
      registry := ["m"], player := none } "m" { id := "m", type := "monster" }
    (by simp [World.getEntity, storeGet, List.lookup]) (by simp)

/-! ### Looting theorems (C8) -/

/-- A corpse whose stored gold range is `[0, 0]`. -/
def zeroCorpse : Entity :=
  { id := "c", type := "corpse", loot := some { gold := some ⟨0, 0⟩ },
    corpse := some ⟨"goblin", false⟩ }

/-- A goblin corpse with the goblin loot table `[1, 5]`. -/
def goblinCorpse : Entity :=
  { id := "c", type := "corpse", loot := some { gold := some ⟨1, 5⟩ },
    corpse := some ⟨"goblin", false⟩ }

/-- A player with an (empty) gold pouch. -/
def lootPlayer : Entity := { id := "p", type := "player", gold := some ⟨0⟩ }

def lootWorldZero : World :=
  { store := [("c", zeroCorpse), ("p", lootPlayer)], registry := ["c", "p"],
    player := some "p" }

def lootWorldGoblin : World :=
  { store := [("c", goblinCorpse), ("p", lootPlayer)], registry := ["c", "p"],
    player := some "p" }

/-- The marked-but-kept corpse the zero-roll loot call leaves behind. -/
def zeroCorpseLooted : Entity := { zeroCorpse with corpse := some ⟨"goblin", true⟩ }

/-- Claim C8 counterexample: on an un-looted corpse whose stored range is
`[0, 0]` the gold roll is 0, so `lootCorpse` credits nothing, returns `false`,
and leaves the corpse in the world — the claim's unconditional
"credits the looter … and removes the corpse from the world" fails. -/
theorem lootCorpse_counterexample :
    (lootCorpse lootWorldZero "c" "p" 0).2 = false ∧
    ((lootCorpse lootWorldZero "c" "p" 0).1).getEntity "c" ≠ none ∧
    storeGet ((lootCorpse lootWorldZero "c" "p" 0).1).store "p" = some lootPlayer := by
  have hpc : ("p" == "c") = false := by decide
  have hcp : ("c" == "p") = false := by decide
  have hres : lootCorpse lootWorldZero "c" "p" 0 =
      ({ lootWorldZero with
          store := storeSet lootWorldZero.store "c" zeroCorpseLooted }, false) := by
    norm_num [lootCorpse, lootWorldZero, zeroCorpse, zeroCorpseLooted, lootPlayer,
      storeGet, List.lookup, storeSet, hpc, hcp]
  rw [hres]
  refine ⟨rfl, ?_, ?_⟩
  · intro hcon
    norm_num [World.getEntity, lootWorldZero, storeGet, storeSet, List.lookup,
      zeroCorpse, zeroCorpseLooted, lootPlayer, hpc, hcp] at hcon
    exact Option.some_ne_none _ hcon
  · norm_num [lootWorldZero, storeGet, storeSet, List.lookup, zeroCorpse,
      zeroCorpseLooted, lootPlayer, hpc, hcp]

/-- Claim C8 (amended): `lootCorpse` on an already-looted corpse is a no-op
returning "nothing to loot"; on an un-looted corpse it rolls a gold amount
from the stored `[min, max]` range and, when that amount is positive (always
the case for the game's loot tables, whose minima are ≥ 1), credits the
looter, marks the corpse looted, removes it from the world, and any repeated
loot call is a no-op that never credits gold again; when the rolled amount is
0 (possible only with `min ≤ 0`) the corpse is still marked looted but stays
in the world and nothing is credited. -/
theorem lootCorpse_amended (w : World) (corpseId playerId : String)
    (corpse player : Entity) (cc : CorpseComp) (loot : Loot) (g : GoldRange)
    (roll : ℚ)
    (hc : storeGet w.store corpseId = some corpse)
    (hp : storeGet w.store playerId = some player)
    (hcc : corpse.corpse = some cc)
    (hloot : corpse.loot = some loot)
    (hgold : loot.gold = some g)
    (hne : corpseId ≠ playerId)
    (hregc : corpseId ∈ w.registry)
    (hnodup : w.registry.Nodup) :
    (cc.looted = true → lootCorpse w corpseId playerId roll = (w, false)) ∧
    (cc.looted = false →
      (0 < ((⌊roll * (g.max - g.min + 1)⌋ : ℤ) : ℚ) + g.min →
        (lootCorpse w corpseId playerId roll).2 = true ∧
        storeGet (lootCorpse w corpseId playerId roll).1.store playerId =
          some { player with gold := some ⟨((player.gold).getD ⟨0⟩).amount +
            (((⌊roll * (g.max - g.min + 1)⌋ : ℤ) : ℚ) + g.min)⟩ } ∧
        ((lootCorpse w corpseId playerId roll).1).getEntity corpseId = none ∧
        (∀ roll2, lootCorpse (lootCorpse w corpseId playerId roll).1
          corpseId playerId roll2 = ((lootCorpse w corpseId playerId roll).1, false))) ∧
      (¬ 0 < ((⌊roll * (g.max - g.min + 1)⌋ : ℤ) : ℚ) + g.min →
        (lootCorpse w corpseId playerId roll).2 = false ∧
        storeGet (lootCorpse w corpseId playerId roll).1.store corpseId =
          some { corpse with corpse := some { cc with looted := true } } ∧
        ((lootCorpse w corpseId playerId roll).1).getEntity corpseId ≠ none)) := by
  constructor
  · intro hlooted
    simp only [lootCorpse, hc, hp, hcc, hloot, hgold, hlooted, if_true]
  · intro hlooted
    constructor
    · intro hpos
      set gA : ℚ := ((⌊roll * (g.max - g.min + 1)⌋ : ℤ) : ℚ) + g.min with hgA
      set player' : Entity :=
        { player with gold := some ⟨((player.gold).getD ⟨0⟩).amount + gA⟩ } with hplayer'
      set corpse' : Entity :=
        { corpse with corpse := some { cc with looted := true } } with hcorpse'
      set w2 : World :=
        { w with store := storeSet (storeSet w.store playerId player') corpseId corpse' }
        with hw2
      have hres : lootCorpse w corpseId playerId roll = ((w2.removeEntity corpseId).1, true) := by
        simp only [lootCorpse, hc, hp, hcc, hloot, hgold, hlooted,
          Bool.false_eq_true, if_false, ← hgA, if_pos hpos, hw2, hplayer', hcorpse',
          if_true]
      have hw2get : w2.getEntity corpseId = some corpse' := by
        unfold World.getEntity
        rw [hw2]
        rw [if_pos hregc, storeGet_storeSet_self]
      set deadCorpse : Entity := { corpse' with active := false } with hdead
      have hrem : (w2.removeEntity corpseId).1 =
          { store := storeSet w2.store corpseId deadCorpse
            registry := w2.registry.erase corpseId
            player := if w2.player = some corpseId then none else w2.player } := by
        unfold World.removeEntity
        rw [hw2get]
      have hw2store : storeGet w2.store playerId = some player' := by
        rw [hw2]
        rw [storeGet_storeSet_ne _ _ _ _ (fun he => hne he.symm), storeGet_storeSet_self]
      rw [hres]
      refine ⟨rfl, ?_, ?_, ?_⟩
      · rw [hrem]
        rw [storeGet_storeSet_ne _ _ _ _ (fun he => hne he.symm), hw2store]
      · rw [hrem]
        unfold World.getEntity
        rw [if_neg]
        rw [hw2]
        exact hnodup.not_mem_erase
      · intro roll2
        rw [hrem]
        have hcget : storeGet (storeSet w2.store corpseId deadCorpse) corpseId =
            some deadCorpse := storeGet_storeSet_self _ _ _
        have hpget : storeGet (storeSet w2.store corpseId deadCorpse) playerId =
            some player' := by
          rw [storeGet_storeSet_ne _ _ _ _ (fun he => hne he.symm), hw2store]
        simp only [lootCorpse, hcget, hpget, hdead, hcorpse', if_true]
    · intro hneg
      set gA : ℚ := ((⌊roll * (g.max - g.min + 1)⌋ : ℤ) : ℚ) + g.min with hgA
      set corpse' : Entity :=
        { corpse with corpse := some { cc with looted := true } } with hcorpse'
      have hres : lootCorpse w corpseId playerId roll =
          ({ w with store := storeSet w.store corpseId corpse' }, false) := by
        simp only [lootCorpse, hc, hp, hcc, hloot, hgold, hlooted,
          Bool.false_eq_true, if_false, ← hgA, if_neg hneg, hcorpse']
      rw [hres]
      refine ⟨rfl, ?_, ?_⟩
      · rw [storeGet_storeSet_self]
      · unfold World.getEntity
        rw [if_pos hregc, storeGet_storeSet_self]
        simp

/-- Witness for the amended C8 at the goblin corpse (gold range `[1, 5]`,
roll 0, so 1 gold): the looted branch no-op law holds, and the positive-roll
branch credits, marks, removes and refuses a second loot. -/
theorem lootCorpse_amended_witness :
    ((⟨"goblin", false⟩ : CorpseComp).looted = true →
      lootCorpse lootWorldGoblin "c" "p" 0 = (lootWorldGoblin, false)) ∧
    ((⟨"goblin", false⟩ : CorpseComp).looted = false →
      (0 < ((⌊(0 : ℚ) * ((5 : ℚ) - 1 + 1)⌋ : ℤ) : ℚ) + 1 →
        (lootCorpse lootWorldGoblin "c" "p" 0).2 = true ∧
        storeGet (lootCorpse lootWorldGoblin "c" "p" 0).1.store "p" =
          some { lootPlayer with gold := some ⟨((lootPlayer.gold).getD ⟨0⟩).amount +
            (((⌊(0 : ℚ) * ((5 : ℚ) - 1 + 1)⌋ : ℤ) : ℚ) + 1)⟩ } ∧
        ((lootCorpse lootWorldGoblin "c" "p" 0).1).getEntity "c" = none ∧
        (∀ roll2, lootCorpse (lootCorpse lootWorldGoblin "c" "p" 0).1
          "c" "p" roll2 = ((lootCorpse lootWorldGoblin "c" "p" 0).1, false))) ∧
      (¬ 0 < ((⌊(0 : ℚ) * ((5 : ℚ) - 1 + 1)⌋ : ℤ) : ℚ) + 1 →
        (lootCorpse lootWorldGoblin "c" "p" 0).2 = false ∧
        storeGet (lootCorpse lootWorldGoblin "c" "p" 0).1.store "c" =
          some { goblinCorpse with corpse := some ⟨"goblin", true⟩ } ∧
        ((lootCorpse lootWorldGoblin "c" "p" 0).1).getEntity "c" ≠ none)) := by
  have hcp : ("c" == "p") = false := by decide
  have hpc : ("p" == "c") = false := by decide
  refine lootCorpse_amended lootWorldGoblin "c" "p" goblinCorpse lootPlayer
    ⟨"goblin", false⟩ { gold := some ⟨1, 5⟩ } ⟨1, 5⟩ 0 ?_ ?_ rfl rfl rfl
    (by decide) (by decide) (by decide)
  · simp [storeGet, List.lookup, lootWorldGoblin]
  · simp [storeGet, List.lookup, lootWorldGoblin, hpc]

/-! ### Death-handling theorems (C9) -/

/-- The player's accumulated experience, read through the world. -/
def experienceOf (w : World) (id : String) : ℚ :=
  match storeGet w.store id with
  | some p =>
    match p.level with
    | some l => l.experience
    | none => 0
  | none => 0

theorem increaseStats_level (e : Entity) (rolls : List ℚ) :
    (increaseStats e rolls).level = e.level := by
  cases hs : e.stats with
  | none => simp [increaseStats, hs]
  | some s =>
    cases rolls with
    | nil => simp [increaseStats, hs]
    | cons r picks => simp [increaseStats, hs]

theorem healthRefill_level (e : Entity) : (healthRefill e).level = e.level := by
  cases hh : e.health with
  | none => simp [healthRefill, hh]
  | some hcomp => simp [healthRefill, hh]

/-- A level-up never touches the experience accumulator. -/
theorem performLevelUp_exp (e : Entity) (lvl : LevelComp) (rolls : List ℚ)
    (h : e.level = some lvl) :
    ∃ v t, (performLevelUp e rolls).level = some ⟨v, lvl.experience, t⟩ := by
  unfold performLevelUp
  rw [h]
  cases e.stats with
  | none => exact ⟨lvl.value, lvl.experienceToNext, h⟩
  | some s =>
    refine ⟨lvl.value + 1,
      getExperienceForLevel (lvl.value + 1 + 1) - lvl.experience, ?_⟩
    rw [healthRefill_level, increaseStats_level]

/-- Whatever `addExperience` does (with or without a level-up), the experience
accumulator ends at `old + amount`: level-ups never deduct experience. -/
theorem addExperience_level (p : Entity) (plvl : LevelComp) (amt : ℚ)
    (rolls : List ℚ) (h : p.level = some plvl) :
    ∃ v t, ((addExperience p amt rolls).1).level =
      some ⟨v, plvl.experience + amt, t⟩ := by
  unfold addExperience
  rw [h]
  unfold checkLevelUp
  simp only []
  split
  · exact performLevelUp_exp _ ⟨plvl.value, plvl.experience + amt,
      plvl.experienceToNext⟩ rolls rfl
  · exact ⟨plvl.value, plvl.experienceToNext, rfl⟩

/-- The corpse `createCorpse` spawns: a fresh `corpse_<id>` entity carrying the
monster's loot table, not yet looted. -/
theorem createCorpse_shape (monster : Entity) (w : World) :
    ∃ c2 : Entity, createCorpse monster w = w.addEntity c2 ∧
      c2.id = "corpse_" ++ monster.id ∧ c2.type = "corpse" ∧
      c2.loot = monster.loot ∧
      c2.corpse = some ⟨(monster.monsterType).getD "monster", false⟩ := by
  unfold createCorpse
  cases hml : monster.loot with
  | none =>
    refine ⟨_, rfl, rfl, rfl, ?_, rfl⟩
    simp
  | some l =>
    refine ⟨_, rfl, rfl, rfl, ?_, rfl⟩
    simp

/-- Claim C9 (amended): when a monster dies, death handling awards the player
experience equal to `deadActor.level × 10`, spawns a `corpse_<id>` corpse
carrying the monster's loot table, and removes the dead actor from the world —
but `handleDeath` itself carries no guard: re-invoking it on the
already-removed actor is NOT a no-op (it awards the same experience again and
refreshes the corpse); exactly-once execution is ensured only by its caller,
which reaches `handleDeath` solely through `canAttack`'s rejection of dead or
inactive targets. -/
theorem handleDeath_spec (w : World) (monster player : Entity) (pid : String)
    (mlvl plvl : LevelComp) (rolls : List ℚ)
    (hmt : monster.type = "monster")
    (hlvl : monster.level = some mlvl)
    (hwp : w.player = some pid)
    (hp : storeGet w.store pid = some player)
    (hplvl : player.level = some plvl)
    (hm : storeGet w.store monster.id = some monster)
    (hmreg : monster.id ∈ w.registry)
    (hpid1 : pid ≠ monster.id)
    (hpid2 : pid ≠ "corpse_" ++ monster.id)
    (hcid1 : "corpse_" ++ monster.id ≠ monster.id)
    (hnodup : w.registry.Nodup)
    (hcreg : ("corpse_" ++ monster.id) ∉ w.registry) :
    experienceOf (handleDeath monster w rolls) pid =
      plvl.experience + (mlvl.value : ℚ) * 10 ∧
    (handleDeath monster w rolls).getEntity monster.id = none ∧
    (∃ c, (handleDeath monster w rolls).getEntity ("corpse_" ++ monster.id) = some c ∧
      c.loot = monster.loot ∧
      c.corpse = some ⟨(monster.monsterType).getD "monster", false⟩ ∧
      c.type = "corpse") := by
  obtain ⟨v, t, hlev⟩ :=
    addExperience_level player plvl ((mlvl.value : ℚ) * 10) rolls hplvl
  set p' : Entity := (addExperience player ((mlvl.value : ℚ) * 10) rolls).1 with hp'
  have hg : giveExperience w pid monster rolls =
      { w with store := storeSet w.store pid p' } := by
    simp only [giveExperience, hlvl, hp, hp']
  set w1 : World := { w with store := storeSet w.store pid p' } with hw1
  obtain ⟨c2, hcw, hc2id, hc2ty, hc2loot, hc2corpse⟩ := createCorpse_shape monster w1
  have hcid_ne_pid : c2.id ≠ pid := by rw [hc2id]; exact fun he => hpid2 he.symm
  have hpid_ne_c2 : pid ≠ c2.id := fun he => hcid_ne_pid he.symm
  have hmn1 : monster.id ≠ c2.id := by rw [hc2id]; exact Ne.symm hcid1
  have hmn2 : monster.id ≠ pid := Ne.symm hpid1
  have hw1store : w1.store = storeSet w.store pid p' := rfl
  have hw2 : createCorpse monster w1 = w1.addEntity c2 := hcw
  have haddreg : (w1.addEntity c2).registry = w.registry ++ [c2.id] := by
    unfold World.addEntity
    rw [if_neg]
    rw [hc2id]
    exact hcreg
  have haddstore : (w1.addEntity c2).store = storeSet w1.store c2.id c2 := rfl
  have hw2get : (w1.addEntity c2).getEntity monster.id = some monster := by
    unfold World.getEntity
    rw [haddreg, if_pos (List.mem_append_left _ hmreg), haddstore,
      storeGet_storeSet_ne _ _ _ _ hmn1, hw1store,
      storeGet_storeSet_ne _ _ _ _ hmn2]
    exact hm
  have hnodup2 : ((w1.addEntity c2).registry).Nodup := by
    rw [haddreg]
    refine List.Nodup.append hnodup (List.nodup_singleton _) ?_
    intro x hx1 hx2
    rw [List.mem_singleton] at hx2
    rw [hx2, hc2id] at hx1
    exact hcreg hx1
  have hfinal : handleDeath monster w rolls =
      ((w1.addEntity c2).removeEntity monster.id).1 := by
    simp only [handleDeath, hwp, hmt, if_true, hg, ← hw1, hw2]
  have hrem : ((w1.addEntity c2).removeEntity monster.id).1 =
      { store := storeSet (w1.addEntity c2).store monster.id
          { monster with active := false }
        registry := ((w1.addEntity c2).registry).erase monster.id
        player := if (w1.addEntity c2).player = some monster.id then none
          else (w1.addEntity c2).player } := by
    unfold World.removeEntity
    rw [hw2get]
  rw [hfinal, hrem]
  refine ⟨?_, ?_, ?_⟩
  · unfold experienceOf
    rw [storeGet_storeSet_ne _ _ _ _ hpid1, haddstore,
      storeGet_storeSet_ne _ _ _ _ hpid_ne_c2, hw1store,
      storeGet_storeSet_self]
    show (match p'.level with
      | some l => l.experience
      | none => 0) = plvl.experience + (mlvl.value : ℚ) * 10
    rw [hlev]
  · unfold World.getEntity
    rw [if_neg]
    exact hnodup2.not_mem_erase
  · refine ⟨c2, ?_, hc2loot, hc2corpse, hc2ty⟩
    unfold World.getEntity
    rw [if_pos, storeGet_storeSet_ne _ _ _ _ hcid1, haddstore, ← hc2id,
      storeGet_storeSet_self]
    · rw [haddreg]
      refine (List.mem_erase_of_ne hcid1).mpr ?_
      rw [← hc2id]
      exact List.mem_append_right _ (List.mem_singleton_self _)

/-- A dead level-2 monster carrying the goblin loot table. -/
def deadMonster : Entity :=
  { id := "m", type := "monster", level := some ⟨2, 0, 0⟩,
    loot := some { gold := some ⟨1, 5⟩ }, monsterType := some "goblin" }

/-- A level-1 player with no accumulated experience. -/
def xpPlayer : Entity := { id := "p", type := "player", level := some ⟨1, 0, 0⟩ }

/-- The two-entity world in which the monster dies. -/
def deathWorld : World :=
  { store := [("p", xpPlayer), ("m", deadMonster)], registry := ["p", "m"],
    player := some "p" }

/-- Claim C9 counterexample: the first `handleDeath` call awards 20 experience
(level 2 × 10) and removes the monster, but a second call on the
already-removed monster is NOT a no-op — the player's experience climbs to 40,
a double award, because `handleDeath` re-reads the dead object through the
surviving reference and carries no already-removed guard. -/
theorem handleDeath_counterexample :
    experienceOf (handleDeath deadMonster deathWorld []) "p" = 20 ∧
    (handleDeath deadMonster deathWorld []).getEntity "m" = none ∧
    experienceOf
      (handleDeath deadMonster (handleDeath deadMonster deathWorld []) []) "p" = 40 := by
  have h1 : ("p" == "m") = false := by decide
  have h2 : ("m" == "p") = false := by decide
  have h3 : ("p" == "corpse_" ++ "m") = false := by decide
  have h4 : ("m" == "corpse_" ++ "m") = false := by decide
  have h5 : ("corpse_" ++ "m" == "p") = false := by decide
  have h6 : ("corpse_" ++ "m" == "m") = false := by decide
  have h7 : ("corpse_" ++ "m") ∉ (["p", "m"] : List String) := by decide
  have n1 : ("p" : String) ≠ "m" := by decide
  have n2 : ("m" : String) ≠ "p" := by decide
  have n3 : ("p" : String) ≠ "corpse_" ++ "m" := by decide
  have n4 : ("m" : String) ≠ "corpse_" ++ "m" := by decide
  have n5 : ("corpse_" ++ "m" : String) ≠ "p" := by decide
  have n6 : ("corpse_" ++ "m" : String) ≠ "m" := by decide
  have n7 : ("corpse" : String) ≠ "player" := by decide
  refine ⟨?_, ?_, ?_⟩ <;>
    norm_num [handleDeath, giveExperience, createCorpse, addExperience,
      checkLevelUp, getExperienceForLevel, experienceTable, World.addEntity,
      World.removeEntity, World.getEntity, experienceOf, storeGet, storeSet,
      List.lookup, List.erase_cons, deathWorld, deadMonster, xpPlayer,
      h1, h2, h3, h4, h5, h6, h7, n1, n2, n3, n4, n5, n6, n7]

/-- Witness for the amended C9 at the concrete death world: the kill awards
`0 + 2 × 10` experience, removes the monster, and leaves a loot-carrying
goblin corpse. -/
theorem handleDeath_spec_witness :
    experienceOf (handleDeath deadMonster deathWorld []) "p" =
      0 + ((2 : ℕ) : ℚ) * 10 ∧
    (handleDeath deadMonster deathWorld []).getEntity deadMonster.id = none ∧
    (∃ c, (handleDeath deadMonster deathWorld []).getEntity
        ("corpse_" ++ deadMonster.id) = some c ∧
      c.loot = deadMonster.loot ∧
      c.corpse = some ⟨(deadMonster.monsterType).getD "monster", false⟩ ∧
      c.type = "corpse") :=
  handleDeath_spec deathWorld deadMonster xpPlayer "p" ⟨2, 0, 0⟩ ⟨1, 0, 0⟩ []
    rfl rfl rfl (by simp [storeGet, List.lookup, deathWorld]) rfl
    (by simp [storeGet, List.lookup, deathWorld, deadMonster])
    (by decide) (by decide) (by decide) (by decide) (by decide) (by decide)

end JavaGame
